import Mathlib

/-!
# State machine core of Urho3D (`Source/Urho3D/Graphics/StateMachine.cpp`)

A shallow embedding of the state graph (`StateMachineConfig`), its states and
transitions, the two JSON loaders and the running instance (`StateMachine`),
followed by the properties established about them.

Conventions of the embedding.

* Objects are values and every non-const member function is a function from the
  object before the call to the result and the object after the call.
* A pointer (`SharedPtr<T>` or `T*`) is an `Option`: `none` is the null pointer.
  Dereferencing the null pointer has no defined behaviour; a function that would
  do so returns `none` instead of a result.
* Single-precision numbers are only carried around by this code, never computed
  with, so a number is kept as its bit pattern.
-/

namespace Urho3D

/-! ## Containers and values the code is written against -/

/-- Modelled from the spec: the engine container `HashMap<K, V>`, declared in
`Container/HashMap.h`, which is not among the sources. The spec has it as a mapping
with one entry per key (section 3). The container iterates in insertion order, so a
map is the list of its nodes, oldest first. The member functions used by the source
file follow, each with the contract the container documents for it. -/
abbrev HashMap (K V : Type) := List (K × V)

/-- The lookup `HashMap::Find`: the value of the node holding `key`, if there is one. -/
def HashMap.Find {K V : Type} [DecidableEq K] : HashMap K V → K → Option V
  | [], _ => none
  | (k, v) :: rest, key => if k = key then some v else HashMap.Find rest key

/-- The test `HashMap::Contains`: whether there is a node holding `key`. -/
def HashMap.Contains {K V : Type} [DecidableEq K] (m : HashMap K V) (key : K) : Bool :=
  (HashMap.Find m key).isSome

/-- The call `HashMap::Insert(Pair)`. When a node for the key exists its value is
replaced, otherwise a new node is linked in at the end. The same function is the
effect of `map[key] = value`, which creates the node when it is missing and then
assigns through the returned reference (section 4.2 of the spec: overwriting any prior
state of the same name silently). -/
def HashMap.Insert {K V : Type} [DecidableEq K] : HashMap K V → K × V → HashMap K V
  | [], p => [p]
  | (k, v) :: rest, p =>
    if k = p.1 then (k, p.2) :: rest else (k, v) :: HashMap.Insert rest p

/-- The non-const `HashMap::operator[]`, used as a read. It yields the value stored
under `key`. Section 7 of the spec calls the lookup of an absent name a direct
unchecked lookup; the container answers it by first creating a node that holds a
default-constructed value `dflt` (the null pointer for a `SharedPtr`) and yielding
that, the same creation of a node that `states_[state->name_] = state` in `LoadJSON`
relies on. Returns the map after the call and the value read. -/
def HashMap.Index {K V : Type} [DecidableEq K] (dflt : V) (m : HashMap K V) (key : K) :
    HashMap K V × V :=
  match HashMap.Find m key with
  | some v => (m, v)
  | none => (HashMap.Insert m (key, dflt), dflt)

/-- The call `HashMap::Erase(key)`, which unlinks the node of `key` when there is one
and does nothing otherwise. -/
def HashMap.Erase {K V : Type} [DecidableEq K] : HashMap K V → K → HashMap K V
  | [], _ => []
  | (k, v) :: rest, key => if k = key then rest else (k, v) :: HashMap.Erase rest key

/-- The count `HashMap::Size`: the number of nodes. -/
def HashMap.Size {K V : Type} (m : HashMap K V) : Nat := m.length

/-- A `float`, kept as its IEEE-754 bit pattern (32 bits). -/
structure Float32 where
  bits : Nat
deriving DecidableEq, Repr

/-- Conversion of a `float` to `bool`: false for the two zeros, true otherwise. -/
def Float32.toBool (f : Float32) : Bool := f.bits % 2 ^ 31 != 0

/-- The constant `0.0f`. -/
def Float32.zero : Float32 := ⟨0⟩

/-- Modelled from the spec: the engine value `JSONValue`, declared in
`Resource/JSONValue.h`, which is not among the sources: a parsed JSON document, of
which only the consumed shape matters (section 1). An object is the map of its members
(a `HashMap<String, JSONValue>`, written out as the list of its nodes). -/
inductive JSONValue where
  | null : JSONValue
  | bool (b : Bool) : JSONValue
  | number (x : Float32) : JSONValue
  | string (s : String) : JSONValue
  | array (items : List JSONValue) : JSONValue
  | object (members : List (String × JSONValue)) : JSONValue

/-- The member access `value[key]` of a `JSONValue`: the member stored under `key` of
an object, the null value when there is no such member or when the value is not an
object (section 7 of the spec: missing fields are read with permissive defaults). (The
lookup may leave a null member under `key` behind in the value it is applied to, and
the non-const overload, which the loaders call on their local copies, first turns a
copy that is not an object into an empty one. Neither changes the value returned by
this or by a later lookup, and the loaders only test `Contains` before they look a
member up.) -/
def JSONValue.index (v : JSONValue) (key : String) : JSONValue :=
  match v with
  | JSONValue.object members =>
    match HashMap.Find members key with
    | some x => x
    | none => JSONValue.null
  | _ => JSONValue.null

/-- The test `JSONValue::Contains(key)`: whether an object has the member; false for
anything that is not an object. -/
def JSONValue.Contains (v : JSONValue) (key : String) : Bool :=
  match v with
  | JSONValue.object members => HashMap.Contains members key
  | _ => false

/-- The getter `JSONValue::GetArray()`: the elements of an array, no element for any other value. -/
def JSONValue.GetArray (v : JSONValue) : List JSONValue :=
  match v with
  | JSONValue.array items => items
  | _ => []

/-- The getter `JSONValue::GetString()`: the empty string for a value that is not a
string. -/
def JSONValue.GetString (v : JSONValue) : String :=
  match v with
  | JSONValue.string s => s
  | _ => ""

/-- The getter `JSONValue::GetFloat()`: zero for a value that is not a number. -/
def JSONValue.GetFloat (v : JSONValue) : Float32 :=
  match v with
  | JSONValue.number x => x
  | _ => Float32.zero

/-! ## Transitions and states -/

/-- The value `StateMachineTransition`: one edge of the graph. The class is declared
in `StateMachine.h`, which is not among the sources; the fields are those the source
file reads and writes, with the types of the data model of the spec (section 3). -/
structure StateMachineTransition where
  name_ : String
  stateFrom_ : String
  stateTo_ : String
  offset_ : Float32
  duration_ : Float32
  hasExitTime_ : Bool
  exitTime_ : Float32
deriving DecidableEq, Repr

/-- The object `StateMachineState`: a named node and the transitions leaving it,
keyed by trigger name. The fields are those the source file reads and writes. -/
structure StateMachineState where
  name_ : String
  speed_ : Float32
  animationClip_ : String
  transitions_ : HashMap String StateMachineTransition
deriving DecidableEq, Repr

/-- Constructor `StateMachineState(name)`. It initialises `name_` only; the clip
name and the transition map start empty. The starting value of `speed_` is fixed by
the class declaration (`StateMachine.h`, not among the sources) and is taken as the
argument `speed0`. -/
def StateMachineState.construct (speed0 : Float32) (name : String) :
    StateMachineState :=
  { name_ := name, speed_ := speed0, animationClip_ := "", transitions_ := [] }

/-- Method `StateMachineState::AddTransition`: the result and the state afterwards. -/
def StateMachineState.AddTransition (self : StateMachineState)
    (transition : StateMachineTransition) : Bool × StateMachineState :=
  if HashMap.Contains self.transitions_ transition.name_ then
    (false, self)
  else
    let inserted := HashMap.Insert self.transitions_ (transition.name_, transition)
    (true, { self with transitions_ := inserted })

/-- Method `StateMachineState::CanTransit`. -/
def StateMachineState.CanTransit (self : StateMachineState) (transitionName : String) :
    Bool :=
  HashMap.Contains self.transitions_ transitionName

/-- Method `StateMachineState::GetName`. -/
def StateMachineState.GetName (self : StateMachineState) : String := self.name_

/-! ## The graph -/

/-- The object `StateMachineConfig`: the states of the graph keyed by name. A value
of the map is a `SharedPtr<StateMachineState>`, which may be null. -/
structure StateMachineConfig where
  states_ : HashMap String (Option StateMachineState)
deriving DecidableEq, Repr

/-- A freshly constructed `StateMachineConfig`: no states. -/
def StateMachineConfig.empty : StateMachineConfig := { states_ := [] }

/-- Method `StateMachineConfig::AddState`: the result and the graph afterwards. -/
def StateMachineConfig.AddState (speed0 : Float32) (self : StateMachineConfig)
    (stateName : String) : Bool × StateMachineConfig :=
  if HashMap.Contains self.states_ stateName then
    (false, self)
  else
    let state := StateMachineState.construct speed0 stateName
    (true, { states_ := HashMap.Insert self.states_ (stateName, some state) })

/-- Method `StateMachineConfig::AddTransition`: the result and the graph afterwards;
no result when the node of `stateFrom_` holds a null pointer, which the method
dereferences. -/
def StateMachineConfig.AddTransition (self : StateMachineConfig)
    (transition : StateMachineTransition) : Option (Bool × StateMachineConfig) :=
  match HashMap.Find self.states_ transition.stateFrom_ with
  | none => some (false, self)
  | some _ =>
    if !HashMap.Contains self.states_ transition.stateTo_ then
      some (false, self)
    else
      let r := HashMap.Index none self.states_ transition.stateFrom_
      match r.2 with
      | none => none
      | some state =>
        let a := StateMachineState.AddTransition state transition
        some (a.1, { states_ := HashMap.Insert r.1 (transition.stateFrom_, some a.2) })

/-- Method `StateMachineConfig::CanTransit`: the result and the graph afterwards
(the method is not declared const); no result when the node of `stateName` holds a
null pointer. -/
def StateMachineConfig.CanTransit (self : StateMachineConfig) (stateName : String)
    (transitionName : String) : Option (Bool × StateMachineConfig) :=
  match HashMap.Find self.states_ stateName with
  | none => some (false, self)
  | some none => none
  | some (some state) => some (StateMachineState.CanTransit state transitionName, self)

/-- Method `StateMachineConfig::GetStatesCount`. -/
def StateMachineConfig.GetStatesCount (self : StateMachineConfig) : Nat :=
  HashMap.Size self.states_

/-! ## The loaders -/

/-- Body of the inner loop of `StateMachineConfig::LoadJSON`: what one element of
the `transitions` array does to the state under construction. -/
def StateMachineConfig.LoadJSON.transitionStep (state : StateMachineState)
    (transitionJson : JSONValue) : StateMachineState :=
  let conditionsJson := (transitionJson.index "conditions").GetArray
  match conditionsJson with
  | [] => state
  | first :: _ =>
    let name := (first.index "parameter").GetString
    let stateFrom := state.name_
    let stateTo := (transitionJson.index "destinationState").GetString
    let transition : StateMachineTransition :=
      { name_ := name
        stateFrom_ := stateFrom
        stateTo_ := stateTo
        offset_ := (transitionJson.index "offset").GetFloat
        duration_ := (transitionJson.index "duration").GetFloat
        hasExitTime_ := (transitionJson.index "duration").GetFloat.toBool
        exitTime_ := (transitionJson.index "exitTime").GetFloat }
    (StateMachineState.AddTransition state transition).2

/-- The state the outer loop of `StateMachineConfig::LoadJSON` builds from one
element of the `states` array: constructed from the name, then given speed and clip
name, then run through the inner loop. -/
def StateMachineConfig.LoadJSON.buildState (stateJson : JSONValue) : StateMachineState :=
  let state : StateMachineState :=
    { name_ := (stateJson.index "name").GetString
      speed_ := (stateJson.index "speed").GetFloat
      animationClip_ := (stateJson.index "animationClip").GetString
      transitions_ := [] }
  let transitionsJson := (stateJson.index "transitions").GetArray
  List.foldl StateMachineConfig.LoadJSON.transitionStep state transitionsJson

/-- Body of the outer loop of `StateMachineConfig::LoadJSON`: builds the state and
stores it with `states_[state->name_] = state`. -/
def StateMachineConfig.LoadJSON.stateStep (self : StateMachineConfig)
    (stateJson : JSONValue) : StateMachineConfig :=
  let state := StateMachineConfig.LoadJSON.buildState stateJson
  { states_ := HashMap.Insert self.states_ (state.name_, some state) }

/-- Method `StateMachineConfig::LoadJSON(const JSONValue&)`: the result and the graph
afterwards. -/
def StateMachineConfig.LoadJSON (self : StateMachineConfig) (source : JSONValue) :
    Bool × StateMachineConfig :=
  let states := (source.index "states").GetArray
  (true, List.foldl StateMachineConfig.LoadJSON.stateStep self states)

/-- Method `StateMachineConfig::LoadUnityJSON`, from the root of the parsed file on:
the result and the graph afterwards. -/
def StateMachineConfig.LoadUnityJSON (self : StateMachineConfig) (root : JSONValue) :
    Bool × StateMachineConfig :=
  if !root.Contains "layers" then
    (false, self)
  else
    let layers := (root.index "layers").GetArray
    match layers with
    | [] => (false, self)
    | firstLayer :: _ =>
      if !firstLayer.Contains "stateMachine" then
        (false, self)
      else
        let stateMachine := firstLayer.index "stateMachine"
        StateMachineConfig.LoadJSON self stateMachine

/-! ## The running instance -/

/-- An observer (`StateMachineDelegate*`), known by its address. -/
abbrev StateMachineDelegate := Nat

/-- The object `StateMachine`. The graph it is bound to (`config_`) is handed to
every function below next to the instance. `stateCurrent_` points to a state object
owned by the graph; the functions of the instance neither change nor replace state
objects, so the pointer is kept as the state it points to. -/
structure StateMachine where
  stateCurrent_ : Option StateMachineState
  delegate_ : Option StateMachineDelegate
deriving DecidableEq, Repr

/-- One call of `StateMachineDelegate::StateMachineDidTransit`: the observer called,
the instance passed as sender in the condition it is in at the time of the call, and
the three names. -/
structure DidTransit where
  delegate : StateMachineDelegate
  sender : StateMachine
  oldStateName : String
  transitionName : String
  newStateName : String
deriving DecidableEq, Repr

/-- Constructor `StateMachine(config, initialState)`: the graph afterwards and the
new instance. The constructor does not touch `delegate_`, whose starting value is
fixed by the class declaration (not among the sources) and is taken as the argument
`delegate0`. -/
def StateMachine.construct (delegate0 : Option StateMachineDelegate)
    (config : StateMachineConfig) (initialState : String) :
    StateMachineConfig × StateMachine :=
  let r := HashMap.Index none config.states_ initialState
  ({ states_ := r.1 }, { stateCurrent_ := r.2, delegate_ := delegate0 })

/-- Method `StateMachine::SetDelegate`. -/
def StateMachine.SetDelegate (self : StateMachine) (delegate : Option StateMachineDelegate) :
    StateMachine :=
  { self with delegate_ := delegate }

/-- Method `StateMachine::GetDelegate`. -/
def StateMachine.GetDelegate (self : StateMachine) : Option StateMachineDelegate :=
  self.delegate_

/-- Everything a call of `StateMachine::Transit` leaves behind. -/
structure TransitOutcome where
  result : Bool
  config : StateMachineConfig
  machine : StateMachine
  calls : List DidTransit
deriving DecidableEq, Repr

/-- Method `StateMachine::Transit`. No outcome when a null pointer is dereferenced:
`stateCurrent_` on entry, or the new `stateCurrent_` when its name is read for the
observer. -/
def StateMachine.Transit (config : StateMachineConfig) (self : StateMachine)
    (transitionName : String) : Option TransitOutcome :=
  match self.stateCurrent_ with
  | none => none
  | some current =>
    if !StateMachineState.CanTransit current transitionName then
      some { result := false, config := config, machine := self, calls := [] }
    else
      let oldStateName := current.GetName
      -- `transitions_[transitionName]` finds its node: CanTransit has just held
      match HashMap.Find current.transitions_ transitionName with
      | none => none
      | some transition =>
        let r := HashMap.Index none config.states_ transition.stateTo_
        let config1 : StateMachineConfig := { states_ := r.1 }
        let self1 : StateMachine := { self with stateCurrent_ := r.2 }
        match self1.delegate_ with
        | none => some { result := true, config := config1, machine := self1, calls := [] }
        | some delegate =>
          match self1.stateCurrent_ with
          | none => none
          | some newState =>
            let call : DidTransit :=
              { delegate := delegate
                sender := self1
                oldStateName := oldStateName
                transitionName := transitionName
                newStateName := newState.GetName }
            some { result := true, config := config1, machine := self1, calls := [call] }

/-- Method `StateMachine::GetCurrentState`: no result on a null `stateCurrent_`. -/
def StateMachine.GetCurrentState (self : StateMachine) : Option String :=
  match self.stateCurrent_ with
  | none => none
  | some current => some current.name_

/-- Method `StateMachine::OnUpdate`: the instance afterwards and the observer calls
made. The body is empty. -/
def StateMachine.OnUpdate (self : StateMachine) (_time : Float32) :
    StateMachine × List DidTransit :=
  (self, [])

/-- Runs `StateMachine::Transit` for each trigger of a list in turn, on the graph and
instance the previous call left behind: the final graph and instance and all observer
calls in order. No outcome as soon as one call has none. -/
def StateMachine.TransitAll (config : StateMachineConfig) (self : StateMachine) :
    List String → Option (StateMachineConfig × StateMachine × List DidTransit)
  | [] => some (config, self, [])
  | t :: rest =>
    match StateMachine.Transit config self t with
    | none => none
    | some out =>
      match StateMachine.TransitAll out.config out.machine rest with
      | none => none
      | some (c, m, calls) => some (c, m, out.calls ++ calls)

/-- A call that builds a graph without a loader: `AddState` or the graph-level
`AddTransition`. -/
inductive BuildCall where
  | addState (stateName : String) : BuildCall
  | addTransition (transition : StateMachineTransition) : BuildCall
deriving DecidableEq, Repr

/-- One `BuildCall` on a graph: the graph afterwards (the boolean result is dropped);
no outcome when `AddTransition` has none. -/
def StateMachineConfig.perform (speed0 : Float32) (self : StateMachineConfig) :
    BuildCall → Option StateMachineConfig
  | BuildCall.addState stateName =>
    some (StateMachineConfig.AddState speed0 self stateName).2
  | BuildCall.addTransition transition =>
    match StateMachineConfig.AddTransition self transition with
    | none => none
    | some r => some r.2

/-- All calls of a `BuildCall` list in turn. -/
def StateMachineConfig.performAll (speed0 : Float32) :
    StateMachineConfig → List BuildCall → Option StateMachineConfig
  | self, [] => some self
  | self, call :: rest =>
    match StateMachineConfig.perform speed0 self call with
    | none => none
    | some next => StateMachineConfig.performAll speed0 next rest

/-! ## The runner -/

/-- The object `StateMachineRunner`. The keys of `stateMachines_` are shared pointers to
instances and are compared as pointers, so a key is the address of an instance, or
`none` for the null pointer. The instances themselves live in a memory, a function from
addresses to instances, that is handed to `Update`. -/
structure StateMachineRunner where
  stateMachines_ : HashMap (Option Nat) Bool
deriving DecidableEq, Repr

/-- A freshly constructed `StateMachineRunner`: no instances. -/
def StateMachineRunner.empty : StateMachineRunner := { stateMachines_ := [] }

/-- Method `StateMachineRunner::RunStateMachine`: `stateMachines_[stateMachine] = true`. -/
def StateMachineRunner.RunStateMachine (self : StateMachineRunner)
    (stateMachine : Option Nat) : StateMachineRunner :=
  { stateMachines_ := HashMap.Insert self.stateMachines_ (stateMachine, true) }

/-- Method `StateMachineRunner::StopStateMachine`. -/
def StateMachineRunner.StopStateMachine (self : StateMachineRunner)
    (stateMachine : Option Nat) : StateMachineRunner :=
  { stateMachines_ := HashMap.Erase self.stateMachines_ stateMachine }

/-- Everything a call of `StateMachineRunner::Update` leaves behind: the memory of the
instances, the addresses of the instances `OnUpdate` was called on, in the order of the
calls, and the observer calls made. -/
structure UpdateOutcome where
  memory : Nat → StateMachine
  visited : List Nat
  calls : List DidTransit

/-- The loop of `StateMachineRunner::Update` over the nodes of `stateMachines_`: each
key is dereferenced and `OnUpdate` is called on the instance. No outcome on a null
key. -/
def StateMachineRunner.Update.loop (timeStep : Float32) :
    List (Option Nat × Bool) → (Nat → StateMachine) → Option UpdateOutcome
  | [], memory => some { memory := memory, visited := [], calls := [] }
  | (none, _) :: _, _ => none
  | (some address, _) :: rest, memory =>
    let r := StateMachine.OnUpdate (memory address) timeStep
    match StateMachineRunner.Update.loop timeStep rest (Function.update memory address r.1) with
    | none => none
    | some out =>
      some { memory := out.memory, visited := address :: out.visited,
             calls := r.2 ++ out.calls }

/-- Method `StateMachineRunner::Update`. -/
def StateMachineRunner.Update (self : StateMachineRunner) (memory : Nat → StateMachine)
    (timeStep : Float32) : Option UpdateOutcome :=
  StateMachineRunner.Update.loop timeStep self.stateMachines_ memory

/-- A call on a runner: `RunStateMachine` or `StopStateMachine` with a pointer to the
instance at an address, or `Update`. -/
inductive RunnerCall where
  | run (address : Nat) : RunnerCall
  | stop (address : Nat) : RunnerCall
  | update (timeStep : Float32) : RunnerCall

/-- One call of a `RunnerCall` list: the runner and the memory of the instances
afterwards. -/
def StateMachineRunner.perform (self : StateMachineRunner) (memory : Nat → StateMachine) :
    RunnerCall → Option (StateMachineRunner × (Nat → StateMachine))
  | RunnerCall.run address => some (self.RunStateMachine (some address), memory)
  | RunnerCall.stop address => some (self.StopStateMachine (some address), memory)
  | RunnerCall.update timeStep =>
    match self.Update memory timeStep with
    | none => none
    | some out => some (self, out.memory)

/-- All calls of a `RunnerCall` list in turn. -/
def StateMachineRunner.performAll :
    StateMachineRunner → (Nat → StateMachine) → List RunnerCall →
      Option (StateMachineRunner × (Nat → StateMachine))
  | self, memory, [] => some (self, memory)
  | self, memory, call :: rest =>
    match StateMachineRunner.perform self memory call with
    | none => none
    | some next => StateMachineRunner.performAll next.1 next.2 rest

/-! ## Predicates on graphs used in the statements -/

/-- A node of `states_` that holds a state holds it under the name of that state. -/
def StateMachineConfig.nodeNamed (p : String × Option StateMachineState) : Bool :=
  match p.2 with
  | none => true
  | some state => state.name_ == p.1

/-- Every state of the graph is stored under its own name. -/
def StateMachineConfig.storedUnderOwnNames (self : StateMachineConfig) : Bool :=
  self.states_.all StateMachineConfig.nodeNamed

/-- The graph has a state object stored under `name`. -/
def StateMachineConfig.hasState (self : StateMachineConfig) (name : String) : Bool :=
  match HashMap.Find self.states_ name with
  | some (some _) => true
  | _ => false

/-- Every transition of `state` leads to a name under which the graph stores a state. -/
def StateMachineConfig.destinationsResolve (self : StateMachineConfig)
    (state : StateMachineState) : Bool :=
  state.transitions_.all (fun q => self.hasState q.2.stateTo_)

/-- Every transition of every state of the graph leads to a state of the graph. -/
def StateMachineConfig.allDestinationsResolve (self : StateMachineConfig) : Bool :=
  self.states_.all (fun p =>
    match p.2 with
    | none => true
    | some state => self.destinationsResolve state)

/-- Every transition of `state`, a state stored under `stateName`, is stored under its
own trigger name, has `stateName` as its source and leads to a name under which the
graph stores a state. -/
def StateMachineConfig.transitionsWellFormed (self : StateMachineConfig)
    (stateName : String) (state : StateMachineState) : Bool :=
  state.transitions_.all (fun q =>
    q.2.name_ == q.1 && q.2.stateFrom_ == stateName && self.hasState q.2.stateTo_)

/-- Every node of the graph holds a state, under the name of that state, and the
transitions of every state are well formed. -/
def StateMachineConfig.wellFormed (self : StateMachineConfig) : Bool :=
  self.states_.all (fun p =>
    match p.2 with
    | none => false
    | some state => state.name_ == p.1 && self.transitionsWellFormed p.1 state)

/-- The state the instance points to is one of the state objects of the graph. -/
def StateMachine.currentIsStateOf (self : StateMachine) (config : StateMachineConfig) :
    Bool :=
  match self.stateCurrent_ with
  | none => false
  | some current => config.states_.any (fun p => decide (p.2 = some current))

/-! ## Sample documents, graphs and instances -/

/-- A condition entry `{"parameter": p}`. -/
def Sample.condition (p : String) : JSONValue :=
  JSONValue.object [("parameter", JSONValue.string p)]

/-- A transition entry with a destination and conditions; the numbers are left out. -/
def Sample.transition (destination : String) (conditions : List JSONValue) : JSONValue :=
  JSONValue.object
    [("destinationState", JSONValue.string destination),
     ("conditions", JSONValue.array conditions)]

/-- A state entry with speed 1.0, the clip name and its transition entries. -/
def Sample.state (name clip : String) (transitions : List JSONValue) : JSONValue :=
  JSONValue.object
    [("name", JSONValue.string name),
     ("speed", JSONValue.number ⟨0x3F800000⟩),
     ("animationClip", JSONValue.string clip),
     ("transitions", JSONValue.array transitions)]

/-- A document of the native dialect. -/
def Sample.document (states : List JSONValue) : JSONValue :=
  JSONValue.object [("states", JSONValue.array states)]

/-- Document with the states Idle and Run; Idle goes to Run on the trigger run, Run goes
back to Idle on the trigger stop. -/
def Sample.idleRunDocument : JSONValue :=
  Sample.document
    [Sample.state "Idle" "idle" [Sample.transition "Run" [Sample.condition "run"]],
     Sample.state "Run" "run" [Sample.transition "Idle" [Sample.condition "stop"]]]

/-- Document with the single state Idle, whose transition on the trigger run leads
to Run, a name for which the document has no state entry. -/
def Sample.danglingDocument : JSONValue :=
  Sample.document
    [Sample.state "Idle" "idle" [Sample.transition "Run" [Sample.condition "run"]]]

/-- The graph loaded from `Sample.idleRunDocument` into a new graph. -/
def Sample.idleRunConfig : StateMachineConfig :=
  (StateMachineConfig.LoadJSON StateMachineConfig.empty Sample.idleRunDocument).2

/-- The graph loaded from `Sample.danglingDocument` into a new graph. -/
def Sample.danglingConfig : StateMachineConfig :=
  (StateMachineConfig.LoadJSON StateMachineConfig.empty Sample.danglingDocument).2

/-- The state Idle of `Sample.idleRunConfig`. -/
def Sample.idleState : StateMachineState :=
  { name_ := "Idle"
    speed_ := ⟨0x3F800000⟩
    animationClip_ := "idle"
    transitions_ := [("run",
      { name_ := "run", stateFrom_ := "Idle", stateTo_ := "Run", offset_ := ⟨0⟩,
        duration_ := ⟨0⟩, hasExitTime_ := false, exitTime_ := ⟨0⟩ })] }

/-- The state Run of `Sample.idleRunConfig`. -/
def Sample.runState : StateMachineState :=
  { name_ := "Run"
    speed_ := ⟨0x3F800000⟩
    animationClip_ := "run"
    transitions_ := [("stop",
      { name_ := "stop", stateFrom_ := "Run", stateTo_ := "Idle", offset_ := ⟨0⟩,
        duration_ := ⟨0⟩, hasExitTime_ := false, exitTime_ := ⟨0⟩ })] }

/-- An instance on `Sample.idleRunConfig` that stands at Idle and has observer 7. -/
def Sample.observedAtIdle : StateMachine :=
  { stateCurrent_ := some Sample.idleState, delegate_ := some 7 }

/-- A transition from Run to Idle under the trigger go. -/
def Sample.goToIdle : StateMachineTransition :=
  { name_ := "go", stateFrom_ := "Run", stateTo_ := "Idle", offset_ := ⟨0⟩,
    duration_ := ⟨0x3F000000⟩, hasExitTime_ := true, exitTime_ := ⟨0⟩ }

/-- A transition from Run to Run under the same trigger go, with other timing data. -/
def Sample.goToRun : StateMachineTransition :=
  { name_ := "go", stateFrom_ := "Run", stateTo_ := "Run", offset_ := ⟨0x3F800000⟩,
    duration_ := ⟨0⟩, hasExitTime_ := false, exitTime_ := ⟨0x3F800000⟩ }

/-- Document in which the name Idle occurs twice. The later Idle entry has a
transition entry without conditions and one whose conditions are run and fast, in
that order; the earlier Idle entry has a transition on the trigger old. -/
def Sample.repeatedIdleDocument : JSONValue :=
  Sample.document
    [Sample.state "Idle" "idle" [Sample.transition "Run" [Sample.condition "old"]],
     Sample.state "Idle" "idle"
       [Sample.transition "Run" [],
        Sample.transition "Run" [Sample.condition "run", Sample.condition "fast"]],
     Sample.state "Run" "run" []]

/-- Document of the foreign dialect with two layers: the first carries
`Sample.idleRunDocument` as its state machine, the second the one-state document. -/
def Sample.unityDocument : JSONValue :=
  JSONValue.object
    [("layers", JSONValue.array
      [JSONValue.object [("stateMachine", Sample.idleRunDocument)],
       JSONValue.object [("stateMachine", Sample.danglingDocument)]])]

/-- Document with the single state Idle and no transition entries. -/
def Sample.idleOnlyDocument : JSONValue :=
  Sample.document [Sample.state "Idle" "idle" []]

/-- Document in which the name Idle occurs twice: the earlier entry has no transition
entries, the later one a transition to Run on the trigger run. -/
def Sample.shadowedIdleDocument : JSONValue :=
  Sample.document
    [Sample.state "Idle" "idle" [],
     Sample.state "Idle" "idle" [Sample.transition "Run" [Sample.condition "run"]],
     Sample.state "Run" "run" []]

/-- An instance on `Sample.danglingConfig` that stands at Idle and has observer 7. -/
def Sample.observedAtDanglingIdle : StateMachine :=
  { (StateMachine.construct none Sample.danglingConfig "Idle").2 with delegate_ := some 7 }

/-- The transition from Idle to Run on the trigger run as the loader builds it from the
sample documents. -/
def Sample.runTransition : StateMachineTransition :=
  { name_ := "run", stateFrom_ := "Idle", stateTo_ := "Run", offset_ := ⟨0⟩,
    duration_ := ⟨0⟩, hasExitTime_ := false, exitTime_ := ⟨0⟩ }

/-- A state entry Idle with three transition entries: one without conditions, one to
Run on the trigger run, and a later one to Walk on the same trigger run. -/
def Sample.twiceRunEntry : JSONValue :=
  Sample.state "Idle" "idle"
    [Sample.transition "Run" [],
     Sample.transition "Run" [Sample.condition "run"],
     Sample.transition "Walk" [Sample.condition "run"]]

/-- A memory of instances: the instance that stands at Idle with observer 7 at every
address. -/
def Sample.memory : Nat → StateMachine := fun _ => Sample.observedAtIdle

/-- Calls that build the sample graph with `AddState` and graph-level `AddTransition`,
among them a second `AddState` of Idle, a transition to the unknown state Walk and a
second transition on run. -/
def Sample.buildCalls : List BuildCall :=
  [BuildCall.addState "Idle", BuildCall.addState "Run", BuildCall.addState "Idle",
   BuildCall.addTransition Sample.runTransition,
   BuildCall.addTransition { Sample.runTransition with stateTo_ := "Walk", name_ := "walk" },
   BuildCall.addTransition { Sample.runTransition with stateTo_ := "Idle" },
   BuildCall.addTransition Sample.goToIdle]

/-! ## Facts about the container -/

theorem HashMap.Find_mem {K V : Type} [DecidableEq K] (m : HashMap K V) (key : K) (v : V)
    (h : HashMap.Find m key = some v) : (key, v) ∈ m := by
  induction m with
  | nil => simp [HashMap.Find] at h
  | cons p rest ih =>
    obtain ⟨k, w⟩ := p
    by_cases hk : k = key
    · subst hk
      simp [HashMap.Find] at h
      subst h
      exact List.mem_cons_self _ _
    · simp [HashMap.Find, hk] at h
      exact List.mem_cons_of_mem _ (ih h)

theorem HashMap.Find_Insert_self {K V : Type} [DecidableEq K] (m : HashMap K V) (key : K)
    (v : V) : HashMap.Find (HashMap.Insert m (key, v)) key = some v := by
  induction m with
  | nil => simp [HashMap.Insert, HashMap.Find]
  | cons p rest ih =>
    obtain ⟨k, w⟩ := p
    by_cases hk : k = key
    · simp [HashMap.Insert, HashMap.Find, hk]
    · simp [HashMap.Insert, HashMap.Find, hk, ih]

theorem HashMap.Find_Insert_other {K V : Type} [DecidableEq K] (m : HashMap K V)
    (key other : K) (v : V) (hne : key ≠ other) :
    HashMap.Find (HashMap.Insert m (key, v)) other = HashMap.Find m other := by
  induction m with
  | nil => simp [HashMap.Insert, HashMap.Find, hne]
  | cons p rest ih =>
    obtain ⟨k, w⟩ := p
    by_cases hk : k = key
    · subst hk
      simp [HashMap.Insert, HashMap.Find, hne]
    · by_cases ho : k = other
      · subst ho
        simp [HashMap.Insert, HashMap.Find, hk]
      · simp [HashMap.Insert, HashMap.Find, hk, ho, ih]

theorem HashMap.Insert_of_Find {K V : Type} [DecidableEq K] (m : HashMap K V) (key : K)
    (v : V) (h : HashMap.Find m key = some v) : HashMap.Insert m (key, v) = m := by
  induction m with
  | nil => simp [HashMap.Find] at h
  | cons p rest ih =>
    obtain ⟨k, w⟩ := p
    by_cases hk : k = key
    · subst hk
      simp [HashMap.Find] at h
      simp [HashMap.Insert, h]
    · simp [HashMap.Find, hk] at h
      simp [HashMap.Insert, hk, ih h]

theorem HashMap.Index_of_Find {K V : Type} [DecidableEq K] (dflt : V) (m : HashMap K V)
    (key : K) (v : V) (h : HashMap.Find m key = some v) :
    HashMap.Index dflt m key = (m, v) := by
  simp [HashMap.Index, h]

theorem HashMap.Size_Insert {K V : Type} [DecidableEq K] (m : HashMap K V) (key : K)
    (v : V) :
    HashMap.Size (HashMap.Insert m (key, v))
      = if HashMap.Contains m key then HashMap.Size m else HashMap.Size m + 1 := by
  induction m with
  | nil => simp [HashMap.Insert, HashMap.Size, HashMap.Contains, HashMap.Find]
  | cons p rest ih =>
    obtain ⟨k, w⟩ := p
    by_cases hk : k = key
    · simp [HashMap.Insert, HashMap.Size, HashMap.Contains, HashMap.Find, hk]
    · simp only [HashMap.Size, HashMap.Contains] at ih
      simp only [HashMap.Insert, HashMap.Size, HashMap.Contains, HashMap.Find, hk, if_false,
        List.length_cons, ih]
      split <;> rfl

theorem StateMachineConfig.name_of_hasState (config : StateMachineConfig)
    (hnames : config.storedUnderOwnNames = true) (name : String) (state : StateMachineState)
    (h : HashMap.Find config.states_ name = some (some state)) : state.name_ = name := by
  have hmem := HashMap.Find_mem _ _ _ h
  have hall := List.all_eq_true.mp hnames _ hmem
  simpa [StateMachineConfig.nodeNamed] using hall

/-! ## Firing a trigger -/

theorem StateMachine.Transit_stay (config : StateMachineConfig) (self : StateMachine)
    (current : StateMachineState) (t : String)
    (hcur : self.stateCurrent_ = some current)
    (hno : HashMap.Find current.transitions_ t = none) :
    StateMachine.Transit config self t
      = some { result := false, config := config, machine := self, calls := [] } := by
  simp [StateMachine.Transit, hcur, StateMachineState.CanTransit, HashMap.Contains, hno]

theorem StateMachine.Transit_move (config : StateMachineConfig) (self : StateMachine)
    (current destination : StateMachineState) (transition : StateMachineTransition)
    (t : String)
    (hcur : self.stateCurrent_ = some current)
    (htr : HashMap.Find current.transitions_ t = some transition)
    (hdest : HashMap.Find config.states_ transition.stateTo_ = some (some destination)) :
    StateMachine.Transit config self t
      = some
          { result := true
            config := config
            machine := { self with stateCurrent_ := some destination }
            calls :=
              match self.delegate_ with
              | none => []
              | some d =>
                [{ delegate := d
                   sender := { self with stateCurrent_ := some destination }
                   oldStateName := current.name_
                   transitionName := t
                   newStateName := destination.name_ }] } := by
  have hcan : StateMachineState.CanTransit current t = true := by
    simp [StateMachineState.CanTransit, HashMap.Contains, htr]
  cases hd : self.delegate_ with
  | none =>
    simp [StateMachine.Transit, hcur, hcan, htr, HashMap.Index_of_Find _ _ _ _ hdest, hd]
  | some d =>
    simp [StateMachine.Transit, hcur, hcan, htr, HashMap.Index_of_Find _ _ _ _ hdest, hd,
      StateMachineState.GetName]

/-- C1 (trigger success). On a graph whose states are stored under their own names,
take an instance whose current state `current` (named A) holds a transition under the
trigger `t`, with destination name B = `transition.stateTo_`, and let the graph store a
state under B. Then `Transit t` has an outcome, returns true and leaves the graph as it
was; afterwards `GetCurrentState` is B; with an observer attached there is exactly one
call, with the names (A, t, B), whose sender is the instance after the move (so the
observer finds the current state to be B already); with no observer there is no
call. -/
theorem transit_success (config : StateMachineConfig) (self : StateMachine)
    (current destination : StateMachineState) (transition : StateMachineTransition)
    (t : String)
    (hnames : config.storedUnderOwnNames = true)
    (hcur : self.stateCurrent_ = some current)
    (htr : HashMap.Find current.transitions_ t = some transition)
    (hdest : HashMap.Find config.states_ transition.stateTo_ = some (some destination)) :
    ∃ out, StateMachine.Transit config self t = some out ∧
      out.result = true ∧
      out.config = config ∧
      out.machine.GetCurrentState = some transition.stateTo_ ∧
      out.calls =
        (match self.delegate_ with
         | none => []
         | some d =>
           [{ delegate := d
              sender := out.machine
              oldStateName := current.name_
              transitionName := t
              newStateName := transition.stateTo_ }]) := by
  have hname : destination.name_ = transition.stateTo_ :=
    StateMachineConfig.name_of_hasState config hnames _ _ hdest
  refine ⟨_, StateMachine.Transit_move config self current destination transition t
    hcur htr hdest, rfl, rfl, ?_, ?_⟩
  · simp [StateMachine.GetCurrentState, hname]
  · cases self.delegate_ <;> simp [hname]

/-- Witness of C1: firing run at Idle on the sample graph, observer 7 attached. -/
theorem transit_success_witness :
    ∃ out, StateMachine.Transit Sample.idleRunConfig Sample.observedAtIdle "run" = some out ∧
      out.result = true ∧
      out.config = Sample.idleRunConfig ∧
      out.machine.GetCurrentState = some "Run" ∧
      out.calls =
        [{ delegate := 7
           sender := out.machine
           oldStateName := "Idle"
           transitionName := "run"
           newStateName := "Run" }] :=
  transit_success Sample.idleRunConfig Sample.observedAtIdle Sample.idleState Sample.runState
    { name_ := "run", stateFrom_ := "Idle", stateTo_ := "Run", offset_ := ⟨0⟩,
      duration_ := ⟨0⟩, hasExitTime_ := false, exitTime_ := ⟨0⟩ }
    "run" (by decide) rfl (by decide) (by decide)

/-- C2 (trigger failure). When the current state of an instance has no transition
under the trigger `t`, `Transit t` returns false, issues no observer call and leaves
the instance (hence its current state name) and the graph exactly as they were. -/
theorem transit_unrecognized (config : StateMachineConfig) (self : StateMachine)
    (current : StateMachineState) (t : String)
    (hcur : self.stateCurrent_ = some current)
    (hno : HashMap.Find current.transitions_ t = none) :
    StateMachine.Transit config self t
      = some { result := false, config := config, machine := self, calls := [] } :=
  StateMachine.Transit_stay config self current t hcur hno

/-- Witness of C2: firing stop at Idle on the sample graph. -/
theorem transit_unrecognized_witness :
    StateMachine.Transit Sample.idleRunConfig Sample.observedAtIdle "stop"
      = some { result := false, config := Sample.idleRunConfig,
               machine := Sample.observedAtIdle, calls := [] } :=
  transit_unrecognized Sample.idleRunConfig Sample.observedAtIdle Sample.idleState "stop"
    rfl (by decide)

/-! ## Building the graph -/

theorem StateMachineConfig.AddState_of_Contains (speed0 : Float32)
    (G : StateMachineConfig) (n : String) (h : HashMap.Contains G.states_ n = true) :
    StateMachineConfig.AddState speed0 G n = (false, G) := by
  rw [StateMachineConfig.AddState, if_pos h]

theorem StateMachineConfig.Contains_after_AddState (speed0 : Float32)
    (G : StateMachineConfig) (n : String) :
    HashMap.Contains (StateMachineConfig.AddState speed0 G n).2.states_ n = true := by
  by_cases h : HashMap.Contains G.states_ n = true
  · rw [StateMachineConfig.AddState_of_Contains speed0 G n h]
    exact h
  · rw [StateMachineConfig.AddState, if_neg h]
    simp [HashMap.Contains, HashMap.Find_Insert_self]

/-- C4 (uniqueness of state names). `AddState n` returns false exactly when the graph
already has an entry named `n`, and then the graph is unchanged. Hence a second
`AddState n` right after a first one returns false and leaves the graph, and with it
`GetStatesCount`, as the first call left them. -/
theorem addState_rejects_duplicate (speed0 : Float32) (G : StateMachineConfig) (n : String) :
    ((StateMachineConfig.AddState speed0 G n).1 = false
        ↔ HashMap.Contains G.states_ n = true) ∧
    ((StateMachineConfig.AddState speed0 G n).1 = false
        → (StateMachineConfig.AddState speed0 G n).2 = G) ∧
    (StateMachineConfig.AddState speed0 (StateMachineConfig.AddState speed0 G n).2 n).1
      = false ∧
    (StateMachineConfig.AddState speed0 (StateMachineConfig.AddState speed0 G n).2 n).2
      = (StateMachineConfig.AddState speed0 G n).2 ∧
    (StateMachineConfig.AddState speed0 (StateMachineConfig.AddState speed0 G n).2 n).2.GetStatesCount
      = (StateMachineConfig.AddState speed0 G n).2.GetStatesCount := by
  have h2 := StateMachineConfig.AddState_of_Contains speed0 _ n
    (StateMachineConfig.Contains_after_AddState speed0 G n)
  refine ⟨?_, ?_, ?_, ?_, ?_⟩
  · by_cases h : HashMap.Contains G.states_ n = true
    · rw [StateMachineConfig.AddState, if_pos h]
      simp [h]
    · rw [StateMachineConfig.AddState, if_neg h]
      simp [h]
  · by_cases h : HashMap.Contains G.states_ n = true
    · rw [StateMachineConfig.AddState, if_pos h]
      simp
    · rw [StateMachineConfig.AddState, if_neg h]
      simp
  · rw [h2]
  · rw [h2]
  · rw [h2]

theorem StateMachineState.AddTransition_of_Contains (s : StateMachineState)
    (t : StateMachineTransition) (h : HashMap.Contains s.transitions_ t.name_ = true) :
    StateMachineState.AddTransition s t = (false, s) := by
  rw [StateMachineState.AddTransition, if_pos h]

theorem StateMachineState.AddTransition_of_not_Contains (s : StateMachineState)
    (t : StateMachineTransition) (h : HashMap.Contains s.transitions_ t.name_ = false) :
    StateMachineState.AddTransition s t
      = (true, { s with transitions_ := HashMap.Insert s.transitions_ (t.name_, t) }) := by
  rw [StateMachineState.AddTransition, if_neg (by simp [h])]

theorem StateMachineState.AddTransition_true_iff (s : StateMachineState)
    (t : StateMachineTransition) :
    (StateMachineState.AddTransition s t).1 = true
      ↔ StateMachineState.CanTransit s t.name_ = false := by
  by_cases h : HashMap.Contains s.transitions_ t.name_ = true
  · rw [StateMachineState.AddTransition, if_pos h, StateMachineState.CanTransit, h]
    simp
  · rw [StateMachineState.AddTransition, if_neg h, StateMachineState.CanTransit]
    simpa using h

/-- C5 (transition isolation). If `AddTransition t1` on a state returned true, then
`AddTransition t2` for a `t2` with the same trigger name returns false and leaves the
state as the first call left it: the transition stored under the trigger is `t1`
itself, and every transition is what it was before the second call. Under any other
trigger the state holds what it held before the first call. -/
theorem addTransition_keeps_first (s : StateMachineState) (t1 t2 : StateMachineTransition)
    (hsame : t2.name_ = t1.name_)
    (hfirst : (StateMachineState.AddTransition s t1).1 = true) :
    (StateMachineState.AddTransition (StateMachineState.AddTransition s t1).2 t2).1 = false ∧
    (StateMachineState.AddTransition (StateMachineState.AddTransition s t1).2 t2).2
      = (StateMachineState.AddTransition s t1).2 ∧
    HashMap.Find
        (StateMachineState.AddTransition (StateMachineState.AddTransition s t1).2 t2).2.transitions_
        t1.name_ = some t1 ∧
    (∀ other, other ≠ t1.name_ →
      HashMap.Find
          (StateMachineState.AddTransition (StateMachineState.AddTransition s t1).2 t2).2.transitions_
          other = HashMap.Find s.transitions_ other) := by
  have hnot : HashMap.Contains s.transitions_ t1.name_ = false := by
    by_cases h : HashMap.Contains s.transitions_ t1.name_ = true
    · rw [StateMachineState.AddTransition, if_pos h] at hfirst
      simp at hfirst
    · simpa using h
  have h1 := StateMachineState.AddTransition_of_not_Contains s t1 hnot
  have hin : HashMap.Contains (StateMachineState.AddTransition s t1).2.transitions_ t2.name_
      = true := by
    rw [h1, hsame]
    simp [HashMap.Contains, HashMap.Find_Insert_self]
  have h2 := StateMachineState.AddTransition_of_Contains _ t2 hin
  refine ⟨by rw [h2], by rw [h2], ?_, ?_⟩
  · rw [h2, h1]
    exact HashMap.Find_Insert_self _ _ _
  · intro other hne
    rw [h2, h1]
    exact HashMap.Find_Insert_other _ _ _ _ (Ne.symm hne)

/-- Witness of C5: on the state Run of the sample graph, a first transition under go
is accepted and a second one under go, to another destination, is rejected. -/
theorem addTransition_keeps_first_witness :
    (StateMachineState.AddTransition
      (StateMachineState.AddTransition Sample.runState Sample.goToIdle).2
      Sample.goToRun).1 = false ∧
    (StateMachineState.AddTransition
      (StateMachineState.AddTransition Sample.runState Sample.goToIdle).2
      Sample.goToRun).2 = (StateMachineState.AddTransition Sample.runState Sample.goToIdle).2 ∧
    HashMap.Find
        (StateMachineState.AddTransition
          (StateMachineState.AddTransition Sample.runState Sample.goToIdle).2
          Sample.goToRun).2.transitions_
        Sample.goToIdle.name_ = some Sample.goToIdle ∧
    (∀ other, other ≠ Sample.goToIdle.name_ →
      HashMap.Find
          (StateMachineState.AddTransition
            (StateMachineState.AddTransition Sample.runState Sample.goToIdle).2
            Sample.goToRun).2.transitions_
          other = HashMap.Find Sample.runState.transitions_ other) :=
  addTransition_keeps_first Sample.runState Sample.goToIdle Sample.goToRun rfl (by decide)

theorem HashMap.Contains_of_Find {K V : Type} [DecidableEq K] (m : HashMap K V) (key : K)
    (v : V) (h : HashMap.Find m key = some v) : HashMap.Contains m key = true := by
  simp [HashMap.Contains, h]

theorem HashMap.Find_of_not_Contains {K V : Type} [DecidableEq K] (m : HashMap K V)
    (key : K) (h : HashMap.Contains m key = false) : HashMap.Find m key = none := by
  simpa [HashMap.Contains] using h

theorem StateMachineConfig.AddTransition_of_source (G : StateMachineConfig)
    (t : StateMachineTransition) (source : StateMachineState)
    (hfrom : HashMap.Find G.states_ t.stateFrom_ = some (some source))
    (hto : HashMap.Contains G.states_ t.stateTo_ = true) :
    StateMachineConfig.AddTransition G t
      = some ((StateMachineState.AddTransition source t).1,
          { states_ := HashMap.Insert G.states_
              (t.stateFrom_, some (StateMachineState.AddTransition source t).2) }) := by
  simp [StateMachineConfig.AddTransition, hfrom, hto, HashMap.Index_of_Find _ _ _ _ hfrom]

/-- C6 (graph-level `AddTransition`). (1) When the graph has no entry named
`t.stateFrom_` or none named `t.stateTo_`, the call returns false and the graph is
unchanged. (2) Otherwise, with `source` the state stored under `t.stateFrom_`, the call
returns what `StateMachineState::AddTransition` returns on `source`, which is true
exactly when `source` had no transition under the trigger `t.name_`; the graph
afterwards stores under `t.stateFrom_` the state that call leaves behind, and when the
result is false the graph is unchanged. -/
theorem config_addTransition (G : StateMachineConfig) (t : StateMachineTransition) :
    ((HashMap.Contains G.states_ t.stateFrom_ = false
        ∨ HashMap.Contains G.states_ t.stateTo_ = false)
      → StateMachineConfig.AddTransition G t = some (false, G)) ∧
    (∀ source, HashMap.Find G.states_ t.stateFrom_ = some (some source)
      → HashMap.Contains G.states_ t.stateTo_ = true
      → ∃ G1, StateMachineConfig.AddTransition G t
            = some ((StateMachineState.AddTransition source t).1, G1) ∧
          ((StateMachineState.AddTransition source t).1 = true
            ↔ StateMachineState.CanTransit source t.name_ = false) ∧
          G1.states_ = HashMap.Insert G.states_
            (t.stateFrom_, some (StateMachineState.AddTransition source t).2) ∧
          ((StateMachineState.AddTransition source t).1 = false → G1 = G)) := by
  constructor
  · intro h
    cases hf : HashMap.Find G.states_ t.stateFrom_ with
    | none => simp [StateMachineConfig.AddTransition, hf]
    | some ptr =>
      have hc := HashMap.Contains_of_Find _ _ _ hf
      rcases h with h | h
      · rw [hc] at h
        cases h
      · simp [StateMachineConfig.AddTransition, hf, h]
  · intro source hfrom hto
    refine ⟨_, StateMachineConfig.AddTransition_of_source G t source hfrom hto,
      StateMachineState.AddTransition_true_iff source t, rfl, ?_⟩
    intro hfalse
    have hin : HashMap.Contains source.transitions_ t.name_ = true := by
      by_cases h : HashMap.Contains source.transitions_ t.name_ = true
      · exact h
      · rw [StateMachineState.AddTransition, if_neg h] at hfalse
        cases hfalse
    rw [StateMachineState.AddTransition_of_Contains source t hin]
    show ({ states_ := HashMap.Insert G.states_ (t.stateFrom_, some source) }
      : StateMachineConfig) = G
    rw [HashMap.Insert_of_Find _ _ _ hfrom]

/-- Instances of C6 on the sample graph: a transition from an unknown state and one to
an unknown state are rejected, a new trigger on Run is accepted, and a second
transition under the trigger stop on Run is rejected with the graph unchanged. -/
theorem config_addTransition_witness :
    StateMachineConfig.AddTransition Sample.idleRunConfig
        { Sample.goToIdle with stateFrom_ := "Walk" } = some (false, Sample.idleRunConfig) ∧
    StateMachineConfig.AddTransition Sample.idleRunConfig
        { Sample.goToIdle with stateTo_ := "Walk" } = some (false, Sample.idleRunConfig) ∧
    (∃ G1, StateMachineConfig.AddTransition Sample.idleRunConfig Sample.goToIdle
        = some (true, G1)) ∧
    StateMachineConfig.AddTransition Sample.idleRunConfig
        { Sample.goToIdle with name_ := "stop" } = some (false, Sample.idleRunConfig) := by
  refine ⟨(config_addTransition Sample.idleRunConfig _).1 (Or.inl (by decide)),
    (config_addTransition Sample.idleRunConfig _).1 (Or.inr (by decide)), ?_, ?_⟩
  · obtain ⟨G1, h, _⟩ := (config_addTransition Sample.idleRunConfig Sample.goToIdle).2
      Sample.runState (by decide) (by decide)
    exact ⟨G1, h⟩
  · obtain ⟨G1, h, _, _, hsame⟩ := (config_addTransition Sample.idleRunConfig
      { Sample.goToIdle with name_ := "stop" }).2 Sample.runState (by decide) (by decide)
    rw [h, hsame (by decide)]
    rfl

/-- C7 (reachability query). `CanTransit s t` returns true exactly when the graph stores
a state under `s` and that state holds a transition under `t`; it returns false when the
graph has no entry named `s`; whenever a state is stored under `s` it returns what
`StateMachineState::CanTransit` returns on that state; and whatever it returns, the
graph after the call is the graph before it. -/
theorem config_canTransit (G : StateMachineConfig) (s t : String) :
    (StateMachineConfig.CanTransit G s t = some (true, G)
      ↔ ∃ state, HashMap.Find G.states_ s = some (some state)
          ∧ HashMap.Contains state.transitions_ t = true) ∧
    (HashMap.Contains G.states_ s = false
      → StateMachineConfig.CanTransit G s t = some (false, G)) ∧
    (∀ state, HashMap.Find G.states_ s = some (some state)
      → StateMachineConfig.CanTransit G s t
          = some (StateMachineState.CanTransit state t, G)) ∧
    (∀ r G1, StateMachineConfig.CanTransit G s t = some (r, G1) → G1 = G) := by
  refine ⟨?_, ?_, ?_, ?_⟩
  · cases hf : HashMap.Find G.states_ s with
    | none => simp [StateMachineConfig.CanTransit, hf]
    | some ptr =>
      cases ptr with
      | none => simp [StateMachineConfig.CanTransit, hf]
      | some state => simp [StateMachineConfig.CanTransit, hf, StateMachineState.CanTransit]
  · intro h
    simp [StateMachineConfig.CanTransit, HashMap.Find_of_not_Contains _ _ h]
  · intro state hf
    simp [StateMachineConfig.CanTransit, hf]
  · intro r G1
    cases hf : HashMap.Find G.states_ s with
    | none =>
      simp only [StateMachineConfig.CanTransit, hf, Option.some.injEq, Prod.mk.injEq]
      exact fun h => h.2.symm
    | some ptr =>
      cases ptr with
      | none => simp [StateMachineConfig.CanTransit, hf]
      | some state =>
        simp only [StateMachineConfig.CanTransit, hf, Option.some.injEq, Prod.mk.injEq]
        exact fun h => h.2.symm

/-- Instances of C7 on the sample graph: Idle can fire run, cannot fire stop, and an
unknown state cannot fire anything. -/
theorem config_canTransit_witness :
    StateMachineConfig.CanTransit Sample.idleRunConfig "Idle" "run"
      = some (true, Sample.idleRunConfig) ∧
    StateMachineConfig.CanTransit Sample.idleRunConfig "Idle" "stop"
      = some (false, Sample.idleRunConfig) ∧
    StateMachineConfig.CanTransit Sample.idleRunConfig "Walk" "run"
      = some (false, Sample.idleRunConfig) :=
  ⟨(config_canTransit Sample.idleRunConfig "Idle" "run").1.mpr
      ⟨Sample.idleState, by decide, by decide⟩,
   (config_canTransit Sample.idleRunConfig "Idle" "stop").2.2.1 Sample.idleState (by decide),
   (config_canTransit Sample.idleRunConfig "Walk" "run").2.1 (by decide)⟩

/-! ## Creating an instance -/

theorem StateMachine.construct_of_state (delegate0 : Option StateMachineDelegate)
    (G : StateMachineConfig) (n : String) (state : StateMachineState)
    (h : HashMap.Find G.states_ n = some (some state)) :
    StateMachine.construct delegate0 G n
      = (G, { stateCurrent_ := some state, delegate_ := delegate0 }) := by
  simp [StateMachine.construct, HashMap.Index_of_Find _ _ _ _ h]

/-- C8 (initial state). On a graph whose states are stored under their own names, an
instance constructed with the name `n` of a state of the graph reports
`GetCurrentState` = `n` before any trigger is fired; constructing it leaves the graph
as it was. -/
theorem construct_reports_initial (delegate0 : Option StateMachineDelegate)
    (G : StateMachineConfig) (n : String) (state : StateMachineState)
    (hnames : G.storedUnderOwnNames = true)
    (h : HashMap.Find G.states_ n = some (some state)) :
    (StateMachine.construct delegate0 G n).2.GetCurrentState = some n ∧
    (StateMachine.construct delegate0 G n).1 = G := by
  rw [StateMachine.construct_of_state delegate0 G n state h]
  exact ⟨by simp [StateMachine.GetCurrentState,
    StateMachineConfig.name_of_hasState G hnames n state h], rfl⟩

/-- Witness of C8: an instance constructed at Run on the sample graph. -/
theorem construct_reports_initial_witness :
    (StateMachine.construct none Sample.idleRunConfig "Run").2.GetCurrentState = some "Run" ∧
    (StateMachine.construct none Sample.idleRunConfig "Run").1 = Sample.idleRunConfig :=
  construct_reports_initial none Sample.idleRunConfig "Run" Sample.runState
    (by decide) (by decide)

/-! ## The current state over a run of triggers -/

theorem StateMachineConfig.destination_of_transition (G : StateMachineConfig)
    (hclosed : G.allDestinationsResolve = true) (k t : String)
    (state : StateMachineState) (transition : StateMachineTransition)
    (hstate : HashMap.Find G.states_ k = some (some state))
    (htr : HashMap.Find state.transitions_ t = some transition) :
    ∃ destination, HashMap.Find G.states_ transition.stateTo_ = some (some destination) := by
  have hnode := List.all_eq_true.mp hclosed _ (HashMap.Find_mem _ _ _ hstate)
  have hres : G.destinationsResolve state = true := by simpa using hnode
  have hone := List.all_eq_true.mp hres _ (HashMap.Find_mem _ _ _ htr)
  simp only [StateMachineConfig.hasState] at hone
  cases hf : HashMap.Find G.states_ transition.stateTo_ with
  | none => simp [hf] at hone
  | some ptr =>
    cases ptr with
    | none => simp [hf] at hone
    | some destination => exact ⟨destination, rfl⟩

theorem StateMachine.currentIsStateOf_of_Find (G : StateMachineConfig) (m : StateMachine)
    (k : String) (state : StateMachineState) (hcur : m.stateCurrent_ = some state)
    (hstate : HashMap.Find G.states_ k = some (some state)) :
    m.currentIsStateOf G = true := by
  simp only [StateMachine.currentIsStateOf, hcur, List.any_eq_true]
  exact ⟨_, HashMap.Find_mem _ _ _ hstate, by simp⟩

theorem StateMachine.TransitAll_keeps_current (G : StateMachineConfig)
    (hclosed : G.allDestinationsResolve = true) (triggers : List String) :
    ∀ (m : StateMachine) (k : String) (state : StateMachineState),
      m.stateCurrent_ = some state →
      HashMap.Find G.states_ k = some (some state) →
      ∃ m1 calls k1 state1, StateMachine.TransitAll G m triggers = some (G, m1, calls) ∧
        m1.stateCurrent_ = some state1 ∧
        HashMap.Find G.states_ k1 = some (some state1) := by
  induction triggers with
  | nil =>
    intro m k state hcur hstate
    exact ⟨m, [], k, state, rfl, hcur, hstate⟩
  | cons t rest ih =>
    intro m k state hcur hstate
    cases htr : HashMap.Find state.transitions_ t with
    | none =>
      obtain ⟨m1, calls, k1, state1, hrun, h1, h2⟩ := ih m k state hcur hstate
      refine ⟨m1, [] ++ calls, k1, state1, ?_, h1, h2⟩
      simp [StateMachine.TransitAll, StateMachine.Transit_stay G m state t hcur htr, hrun]
    | some transition =>
      obtain ⟨destination, hdest⟩ :=
        StateMachineConfig.destination_of_transition G hclosed k t state transition hstate htr
      have hmove := StateMachine.Transit_move G m state destination transition t hcur htr hdest
      obtain ⟨m1, calls, k1, state1, hrun, h1, h2⟩ :=
        ih { m with stateCurrent_ := some destination } transition.stateTo_ destination
          rfl hdest
      have hall : ∃ calls1, StateMachine.TransitAll G m (t :: rest) = some (G, m1, calls1) := by
        simp [StateMachine.TransitAll, hmove, hrun]
      obtain ⟨calls1, hall⟩ := hall
      exact ⟨m1, calls1, k1, state1, hall, h1, h2⟩

/-- C3, as the code has it. On a graph in which every transition of every state leads
to a name under which the graph stores a state, take an instance constructed on the
name `n` of a state of the graph. Then any finite run of `Transit` calls has an
outcome, leaves the graph as it was, and ends with the instance pointing to one of the
state objects of the graph. -/
theorem current_stays_in_graph (delegate0 : Option StateMachineDelegate)
    (G : StateMachineConfig) (n : String) (state : StateMachineState)
    (triggers : List String)
    (hclosed : G.allDestinationsResolve = true)
    (hinit : HashMap.Find G.states_ n = some (some state)) :
    ∃ m calls,
      StateMachine.TransitAll (StateMachine.construct delegate0 G n).1
        (StateMachine.construct delegate0 G n).2 triggers = some (G, m, calls) ∧
      m.currentIsStateOf G = true := by
  rw [StateMachine.construct_of_state delegate0 G n state hinit]
  obtain ⟨m1, calls, k1, state1, hrun, h1, h2⟩ :=
    StateMachine.TransitAll_keeps_current G hclosed triggers
      { stateCurrent_ := some state, delegate_ := delegate0 } n state rfl hinit
  exact ⟨m1, calls, hrun, StateMachine.currentIsStateOf_of_Find G m1 k1 state1 h1 h2⟩

/-- Witness of C3 as amended: an instance constructed at Idle on the sample graph,
fired with run, an unknown trigger, stop and run. -/
theorem current_stays_in_graph_witness :
    ∃ m calls,
      StateMachine.TransitAll (StateMachine.construct (some 7) Sample.idleRunConfig "Idle").1
        (StateMachine.construct (some 7) Sample.idleRunConfig "Idle").2
        ["run", "jump", "stop", "run"] = some (Sample.idleRunConfig, m, calls) ∧
      m.currentIsStateOf Sample.idleRunConfig = true :=
  current_stays_in_graph (some 7) Sample.idleRunConfig "Idle" Sample.idleState
    ["run", "jump", "stop", "run"] (by decide) (by decide)

/-- C3 fails as stated. The graph loaded from the document with the single state Idle
and a transition on run to the absent state Run is produced by a loader call and has a
state Idle. An instance constructed on Idle and fired once with run gets true back, and
afterwards its current state pointer is null, so it points to no state of the
graph. -/
theorem current_leaves_graph_after_load :
    StateMachineConfig.LoadJSON StateMachineConfig.empty Sample.danglingDocument
      = (true, Sample.danglingConfig) ∧
    Sample.danglingConfig.hasState "Idle" = true ∧
    ∃ out,
      StateMachine.Transit (StateMachine.construct none Sample.danglingConfig "Idle").1
        (StateMachine.construct none Sample.danglingConfig "Idle").2 "run" = some out ∧
      out.result = true ∧
      out.machine.stateCurrent_ = none ∧
      out.machine.currentIsStateOf out.config = false :=
  ⟨rfl, by decide, _, rfl, by decide, by decide, by decide⟩

/-! ## The native loader -/

theorem HashMap.Contains_Insert {K V : Type} [DecidableEq K] (m : HashMap K V)
    (key other : K) (v : V) :
    HashMap.Contains (HashMap.Insert m (key, v)) other = true
      ↔ key = other ∨ HashMap.Contains m other = true := by
  by_cases h : key = other
  · subst h
    simp [HashMap.Contains, HashMap.Find_Insert_self]
  · simp [HashMap.Contains, HashMap.Find_Insert_other _ _ _ _ h, h]

theorem StateMachineState.Contains_after_AddTransition (s : StateMachineState)
    (t : StateMachineTransition) (p : String) :
    HashMap.Contains (StateMachineState.AddTransition s t).2.transitions_ p = true
      ↔ HashMap.Contains s.transitions_ p = true ∨ t.name_ = p := by
  by_cases h : HashMap.Contains s.transitions_ t.name_ = true
  · rw [StateMachineState.AddTransition_of_Contains s t h]
    constructor
    · exact fun hp => Or.inl hp
    · rintro (hp | hp)
      · exact hp
      · rw [← hp]
        exact h
  · rw [StateMachineState.AddTransition_of_not_Contains s t (by simpa using h)]
    rw [HashMap.Contains_Insert]
    exact Or.comm

theorem StateMachineState.name_after_AddTransition (s : StateMachineState)
    (t : StateMachineTransition) : (StateMachineState.AddTransition s t).2.name_ = s.name_ := by
  by_cases h : HashMap.Contains s.transitions_ t.name_ = true
  · rw [StateMachineState.AddTransition_of_Contains s t h]
  · rw [StateMachineState.AddTransition_of_not_Contains s t (by simpa using h)]

theorem StateMachineConfig.LoadJSON.transitionStep_name (s : StateMachineState)
    (tj : JSONValue) : (StateMachineConfig.LoadJSON.transitionStep s tj).name_ = s.name_ := by
  unfold StateMachineConfig.LoadJSON.transitionStep
  cases (tj.index "conditions").GetArray with
  | nil => rfl
  | cons first rest => exact StateMachineState.name_after_AddTransition _ _

theorem StateMachineConfig.LoadJSON.transitionStep_Contains (s : StateMachineState)
    (tj : JSONValue) (p : String) :
    HashMap.Contains (StateMachineConfig.LoadJSON.transitionStep s tj).transitions_ p = true
      ↔ HashMap.Contains s.transitions_ p = true
        ∨ ∃ first rest, (tj.index "conditions").GetArray = first :: rest
            ∧ (first.index "parameter").GetString = p := by
  unfold StateMachineConfig.LoadJSON.transitionStep
  cases hc : (tj.index "conditions").GetArray with
  | nil => simp
  | cons first rest =>
    simp only [StateMachineState.Contains_after_AddTransition]
    constructor
    · rintro (h | h)
      · exact Or.inl h
      · exact Or.inr ⟨first, rest, rfl, h⟩
    · rintro (h | ⟨f, r, hfr, h⟩)
      · exact Or.inl h
      · injection hfr with h1 h2
        subst h1
        exact Or.inr h

theorem StateMachineConfig.LoadJSON.foldl_transitionStep_name (l : List JSONValue) :
    ∀ s : StateMachineState,
      (List.foldl StateMachineConfig.LoadJSON.transitionStep s l).name_ = s.name_ := by
  induction l with
  | nil => intro s; rfl
  | cons tj rest ih =>
    intro s
    rw [List.foldl_cons, ih, StateMachineConfig.LoadJSON.transitionStep_name]

theorem StateMachineConfig.LoadJSON.foldl_transitionStep_Contains (l : List JSONValue)
    (p : String) :
    ∀ s : StateMachineState,
      HashMap.Contains (List.foldl StateMachineConfig.LoadJSON.transitionStep s l).transitions_ p
          = true
        ↔ HashMap.Contains s.transitions_ p = true
          ∨ ∃ tj ∈ l, ∃ first rest, (tj.index "conditions").GetArray = first :: rest
              ∧ (first.index "parameter").GetString = p := by
  induction l with
  | nil => intro s; simp
  | cons tj rest ih =>
    intro s
    rw [List.foldl_cons, ih, StateMachineConfig.LoadJSON.transitionStep_Contains]
    constructor
    · rintro ((h | h) | ⟨x, hx, h⟩)
      · exact Or.inl h
      · exact Or.inr ⟨tj, List.mem_cons_self _ _, h⟩
      · exact Or.inr ⟨x, List.mem_cons_of_mem _ hx, h⟩
    · rintro (h | ⟨x, hx, h⟩)
      · exact Or.inl (Or.inl h)
      · rcases List.mem_cons.mp hx with hx | hx
        · subst hx
          exact Or.inl (Or.inr h)
        · exact Or.inr ⟨x, hx, h⟩

theorem StateMachineConfig.LoadJSON.buildState_name (e : JSONValue) :
    (StateMachineConfig.LoadJSON.buildState e).name_ = (e.index "name").GetString := by
  unfold StateMachineConfig.LoadJSON.buildState
  exact StateMachineConfig.LoadJSON.foldl_transitionStep_name _ _

theorem StateMachineConfig.LoadJSON.buildState_CanTransit (e : JSONValue) (p : String) :
    StateMachineState.CanTransit (StateMachineConfig.LoadJSON.buildState e) p = true
      ↔ ∃ tj ∈ (e.index "transitions").GetArray, ∃ first rest,
          (tj.index "conditions").GetArray = first :: rest
            ∧ (first.index "parameter").GetString = p := by
  unfold StateMachineState.CanTransit StateMachineConfig.LoadJSON.buildState
  rw [StateMachineConfig.LoadJSON.foldl_transitionStep_Contains]
  simp [HashMap.Contains, HashMap.Find]

theorem StateMachineConfig.LoadJSON.foldl_stateStep_other (s : String)
    (post : List JSONValue) (hlast : ∀ x ∈ post, (x.index "name").GetString ≠ s) :
    ∀ G : StateMachineConfig,
      HashMap.Find (List.foldl StateMachineConfig.LoadJSON.stateStep G post).states_ s
        = HashMap.Find G.states_ s := by
  induction post with
  | nil => intro G; rfl
  | cons x rest ih =>
    intro G
    rw [List.foldl_cons, ih (fun y hy => hlast y (List.mem_cons_of_mem _ hy))]
    unfold StateMachineConfig.LoadJSON.stateStep
    apply HashMap.Find_Insert_other
    rw [StateMachineConfig.LoadJSON.buildState_name]
    exact hlast x (List.mem_cons_self _ _)

theorem StateMachineConfig.LoadJSON_Find_last (G : StateMachineConfig) (D : JSONValue)
    (pre post : List JSONValue) (e : JSONValue) (s : String)
    (hsplit : (D.index "states").GetArray = pre ++ e :: post)
    (hname : (e.index "name").GetString = s)
    (hlast : ∀ x ∈ post, (x.index "name").GetString ≠ s) :
    HashMap.Find (StateMachineConfig.LoadJSON G D).2.states_ s
      = some (some (StateMachineConfig.LoadJSON.buildState e)) := by
  unfold StateMachineConfig.LoadJSON
  simp only [hsplit, List.foldl_append, List.foldl_cons]
  rw [StateMachineConfig.LoadJSON.foldl_stateStep_other s post hlast]
  unfold StateMachineConfig.LoadJSON.stateStep
  simp only [StateMachineConfig.LoadJSON.buildState_name, hname]
  exact HashMap.Find_Insert_self _ _ _

/-- C9 (trigger keys created by the native loader). Let `e` be the last entry of the
`states` array of the document `D` whose name is `s`. After `LoadJSON` has run on `D`
(on any graph), `CanTransit s p` has a result and leaves the graph alone, and the result
is true exactly when `e` has a transition entry whose `conditions` array is not empty
and whose first condition has the parameter `p`. So an entry with no conditions makes
no trigger key, and neither does a condition after the first. -/
theorem loadJSON_trigger_keys (G : StateMachineConfig) (D : JSONValue)
    (pre post : List JSONValue) (e : JSONValue) (s p : String)
    (hsplit : (D.index "states").GetArray = pre ++ e :: post)
    (hname : (e.index "name").GetString = s)
    (hlast : ∀ x ∈ post, (x.index "name").GetString ≠ s) :
    ∃ b, StateMachineConfig.CanTransit (StateMachineConfig.LoadJSON G D).2 s p
          = some (b, (StateMachineConfig.LoadJSON G D).2) ∧
      (b = true ↔ ∃ tj ∈ (e.index "transitions").GetArray, ∃ first rest,
          (tj.index "conditions").GetArray = first :: rest
            ∧ (first.index "parameter").GetString = p) := by
  have hfind := StateMachineConfig.LoadJSON_Find_last G D pre post e s hsplit hname hlast
  refine ⟨StateMachineState.CanTransit (StateMachineConfig.LoadJSON.buildState e) p, ?_,
    StateMachineConfig.LoadJSON.buildState_CanTransit e p⟩
  simp [StateMachineConfig.CanTransit, hfind]

/-- Witness of C9: in the sample document with two entries named Idle, loaded over the
sample graph, the later entry decides; the first condition run of its second
transition entry is a trigger of Idle after loading. -/
theorem loadJSON_trigger_keys_witness :
    StateMachineConfig.CanTransit
        (StateMachineConfig.LoadJSON Sample.idleRunConfig Sample.repeatedIdleDocument).2
        "Idle" "run"
      = some (true,
          (StateMachineConfig.LoadJSON Sample.idleRunConfig Sample.repeatedIdleDocument).2) := by
  obtain ⟨b, hcall, hiff⟩ :=
    loadJSON_trigger_keys Sample.idleRunConfig Sample.repeatedIdleDocument
      [Sample.state "Idle" "idle" [Sample.transition "Run" [Sample.condition "old"]]]
      [Sample.state "Run" "run" []]
      (Sample.state "Idle" "idle"
        [Sample.transition "Run" [],
         Sample.transition "Run" [Sample.condition "run", Sample.condition "fast"]])
      "Idle" "run" rfl rfl (by decide)
  have hb : b = true :=
    hiff.mpr ⟨Sample.transition "Run" [Sample.condition "run", Sample.condition "fast"],
      by simp [Sample.state, JSONValue.index, JSONValue.GetArray, HashMap.Find],
      Sample.condition "run", [Sample.condition "fast"], rfl, rfl⟩
  rw [hcall, hb]

theorem List.split_at_mem_of_nodup_map {α β : Type} (f : α → β) (l : List α) (x : α)
    (hnodup : (l.map f).Nodup) (hx : x ∈ l) :
    ∃ pre post, l = pre ++ x :: post ∧ ∀ y ∈ post, f y ≠ f x := by
  obtain ⟨pre, post, rfl⟩ := List.append_of_mem hx
  refine ⟨pre, post, rfl, ?_⟩
  intro y hy heq
  rw [List.map_append, List.map_cons] at hnodup
  have h2 := (List.nodup_append.mp hnodup).2.1
  have h3 := (List.nodup_cons.mp h2).1
  exact h3 (heq ▸ List.mem_map_of_mem f hy)

theorem StateMachineConfig.LoadJSON.buildState_single (e tj first : JSONValue)
    (rest : List JSONValue)
    (htrans : (e.index "transitions").GetArray = [tj])
    (hcond : (tj.index "conditions").GetArray = first :: rest) :
    ∃ transition,
      HashMap.Find (StateMachineConfig.LoadJSON.buildState e).transitions_
          (first.index "parameter").GetString = some transition ∧
      transition.stateTo_ = (tj.index "destinationState").GetString := by
  unfold StateMachineConfig.LoadJSON.buildState
  simp only [htrans, List.foldl_cons, List.foldl_nil]
  unfold StateMachineConfig.LoadJSON.transitionStep
  simp only [hcond]
  rw [StateMachineState.AddTransition_of_not_Contains _ _ (by rfl)]
  exact ⟨_, HashMap.Find_Insert_self _ _ _, rfl⟩

/-- C10 (load, then fire). Let the document `D` have pairwise distinct state names, a
state entry `e` named `s` whose only transition entry `tj` has the destination `d` and
a non-empty `conditions` array with first parameter `p`, and some state entry named
`d`. After `LoadJSON` of `D` into an empty graph, `CanTransit s p` is true, and on an
instance constructed at `s` the call `Transit p` returns true and leaves
`GetCurrentState` = `d`. -/
theorem load_then_fire (delegate0 : Option StateMachineDelegate)
    (D e tj first : JSONValue) (rest : List JSONValue) (s d p : String)
    (hdistinct : ((D.index "states").GetArray.map
      (fun x => (x.index "name").GetString)).Nodup)
    (he : e ∈ (D.index "states").GetArray)
    (hname : (e.index "name").GetString = s)
    (htrans : (e.index "transitions").GetArray = [tj])
    (hdest : (tj.index "destinationState").GetString = d)
    (hcond : (tj.index "conditions").GetArray = first :: rest)
    (hparam : (first.index "parameter").GetString = p)
    (hd : ∃ x ∈ (D.index "states").GetArray, (x.index "name").GetString = d) :
    StateMachineConfig.CanTransit
        (StateMachineConfig.LoadJSON StateMachineConfig.empty D).2 s p
      = some (true, (StateMachineConfig.LoadJSON StateMachineConfig.empty D).2) ∧
    ∃ out,
      StateMachine.Transit
        (StateMachine.construct delegate0
          (StateMachineConfig.LoadJSON StateMachineConfig.empty D).2 s).1
        (StateMachine.construct delegate0
          (StateMachineConfig.LoadJSON StateMachineConfig.empty D).2 s).2 p = some out ∧
      out.result = true ∧
      out.machine.GetCurrentState = some d := by
  obtain ⟨pre, post, hsplit, hlast⟩ :=
    List.split_at_mem_of_nodup_map (fun x => (x.index "name").GetString) _ e hdistinct he
  have hfind := StateMachineConfig.LoadJSON_Find_last StateMachineConfig.empty D pre post e s
    hsplit hname (fun y hy => by simpa [hname] using hlast y hy)
  obtain ⟨x, hx, hxname⟩ := hd
  obtain ⟨pre1, post1, hsplit1, hlast1⟩ :=
    List.split_at_mem_of_nodup_map (fun x => (x.index "name").GetString) _ x hdistinct hx
  have hfindd := StateMachineConfig.LoadJSON_Find_last StateMachineConfig.empty D pre1 post1 x d
    hsplit1 hxname (fun y hy => by simpa [hxname] using hlast1 y hy)
  obtain ⟨transition, htr, hto⟩ :=
    StateMachineConfig.LoadJSON.buildState_single e tj first rest htrans hcond
  rw [hparam] at htr
  rw [hdest] at hto
  constructor
  · have hcan : StateMachineState.CanTransit (StateMachineConfig.LoadJSON.buildState e) p
        = true := by
      simp [StateMachineState.CanTransit, HashMap.Contains, htr]
    simp [StateMachineConfig.CanTransit, hfind, hcan]
  · rw [StateMachine.construct_of_state delegate0 _ s _ hfind]
    refine ⟨_, StateMachine.Transit_move _ _ (StateMachineConfig.LoadJSON.buildState e)
      (StateMachineConfig.LoadJSON.buildState x) transition p rfl htr
      (by rw [hto]; exact hfindd), rfl, ?_⟩
    simp [StateMachine.GetCurrentState, StateMachineConfig.LoadJSON.buildState_name, hxname]

/-- Witness of C10: the sample document with Idle and Run, fired with run at Idle. -/
theorem load_then_fire_witness :
    StateMachineConfig.CanTransit
        (StateMachineConfig.LoadJSON StateMachineConfig.empty Sample.idleRunDocument).2
        "Idle" "run"
      = some (true,
          (StateMachineConfig.LoadJSON StateMachineConfig.empty Sample.idleRunDocument).2) ∧
    ∃ out,
      StateMachine.Transit
        (StateMachine.construct none
          (StateMachineConfig.LoadJSON StateMachineConfig.empty Sample.idleRunDocument).2
          "Idle").1
        (StateMachine.construct none
          (StateMachineConfig.LoadJSON StateMachineConfig.empty Sample.idleRunDocument).2
          "Idle").2 "run" = some out ∧
      out.result = true ∧
      out.machine.GetCurrentState = some "Run" :=
  load_then_fire none Sample.idleRunDocument
    (Sample.state "Idle" "idle" [Sample.transition "Run" [Sample.condition "run"]])
    (Sample.transition "Run" [Sample.condition "run"])
    (Sample.condition "run") [] "Idle" "Run" "run"
    (by decide) (by simp [Sample.idleRunDocument, Sample.document, JSONValue.index,
      JSONValue.GetArray, HashMap.Find])
    rfl rfl rfl rfl rfl
    ⟨Sample.state "Run" "run" [Sample.transition "Idle" [Sample.condition "stop"]],
      by simp [Sample.idleRunDocument, Sample.document, JSONValue.index,
        JSONValue.GetArray, HashMap.Find], rfl⟩

/-! ## The foreign loader -/

theorem JSONValue.Contains_of_GetArray_index (v : JSONValue) (key : String)
    (first : JSONValue) (rest : List JSONValue)
    (h : (v.index key).GetArray = first :: rest) : v.Contains key = true := by
  cases v with
  | object members =>
    cases hf : HashMap.Find members key with
    | none => simp [JSONValue.index, hf, JSONValue.GetArray] at h
    | some x => simp [JSONValue.Contains, HashMap.Contains, hf]
  | null => simp [JSONValue.index, JSONValue.GetArray] at h
  | bool b => simp [JSONValue.index, JSONValue.GetArray] at h
  | number x => simp [JSONValue.index, JSONValue.GetArray] at h
  | string s => simp [JSONValue.index, JSONValue.GetArray] at h
  | array items => simp [JSONValue.index, JSONValue.GetArray] at h

theorem StateMachineConfig.LoadUnityJSON_of_first (G : StateMachineConfig)
    (F first : JSONValue) (rest : List JSONValue)
    (hlayers : (F.index "layers").GetArray = first :: rest)
    (hkey : first.Contains "stateMachine" = true) :
    StateMachineConfig.LoadUnityJSON G F
      = StateMachineConfig.LoadJSON G (first.index "stateMachine") := by
  have hc := JSONValue.Contains_of_GetArray_index F "layers" first rest hlayers
  simp [StateMachineConfig.LoadUnityJSON, hc, hlayers, hkey]

/-- C12 (foreign dialect delegation). When the `layers` array of the document `F` is
not empty and its first element has a member `stateMachine` with the value `D`, then
`LoadUnityJSON` on `F` returns the same boolean and leaves the same graph as `LoadJSON`
on `D`, for every graph loaded into. Any other document whose `layers` array starts
with the same first element gives the same result, whatever its other layers are. -/
theorem loadUnityJSON_delegates (G : StateMachineConfig) (F first D : JSONValue)
    (rest : List JSONValue)
    (hlayers : (F.index "layers").GetArray = first :: rest)
    (hkey : first.Contains "stateMachine" = true)
    (hD : first.index "stateMachine" = D) :
    StateMachineConfig.LoadUnityJSON G F = StateMachineConfig.LoadJSON G D ∧
    (∀ (F1 : JSONValue) (rest1 : List JSONValue),
      (F1.index "layers").GetArray = first :: rest1 →
      StateMachineConfig.LoadUnityJSON G F1 = StateMachineConfig.LoadUnityJSON G F) := by
  have h := StateMachineConfig.LoadUnityJSON_of_first G F first rest hlayers hkey
  refine ⟨by rw [h, hD], ?_⟩
  intro F1 rest1 h1
  rw [h, StateMachineConfig.LoadUnityJSON_of_first G F1 first rest1 h1 hkey]

/-- Witness of C12: the two-layer sample document loads as its first state machine
does. -/
theorem loadUnityJSON_delegates_witness :
    StateMachineConfig.LoadUnityJSON StateMachineConfig.empty Sample.unityDocument
      = StateMachineConfig.LoadJSON StateMachineConfig.empty Sample.idleRunDocument ∧
    (∀ (F1 : JSONValue) (rest1 : List JSONValue),
      (F1.index "layers").GetArray
        = JSONValue.object [("stateMachine", Sample.idleRunDocument)] :: rest1 →
      StateMachineConfig.LoadUnityJSON StateMachineConfig.empty F1
        = StateMachineConfig.LoadUnityJSON StateMachineConfig.empty Sample.unityDocument) :=
  loadUnityJSON_delegates StateMachineConfig.empty Sample.unityDocument
    (JSONValue.object [("stateMachine", Sample.idleRunDocument)]) Sample.idleRunDocument
    [JSONValue.object [("stateMachine", Sample.danglingDocument)]] rfl rfl rfl

theorem StateMachineConfig.LoadJSON_result (G : StateMachineConfig) (D : JSONValue) :
    (StateMachineConfig.LoadJSON G D).1 = true := rfl

/-- C13 (failure of the foreign loader). `LoadUnityJSON` returns false exactly when the
document has no member `layers`, or its `layers` array has no element, or the first
element of that array has no member `stateMachine`; and whenever it returns false the
graph is left as it was. -/
theorem loadUnityJSON_false_iff (G : StateMachineConfig) (F : JSONValue) :
    ((StateMachineConfig.LoadUnityJSON G F).1 = false
      ↔ (F.Contains "layers" = false
          ∨ (F.index "layers").GetArray = []
          ∨ ∃ first rest, (F.index "layers").GetArray = first :: rest
              ∧ first.Contains "stateMachine" = false)) ∧
    ((StateMachineConfig.LoadUnityJSON G F).1 = false
      → (StateMachineConfig.LoadUnityJSON G F).2 = G) := by
  by_cases hc : F.Contains "layers" = true
  · cases hl : (F.index "layers").GetArray with
    | nil => simp [StateMachineConfig.LoadUnityJSON, hc, hl]
    | cons first rest =>
      by_cases hk : first.Contains "stateMachine" = true
      · simp [StateMachineConfig.LoadUnityJSON, hc, hl, hk,
          StateMachineConfig.LoadJSON_result]
      · simp [StateMachineConfig.LoadUnityJSON, hc, hl, hk]
  · simp [StateMachineConfig.LoadUnityJSON, hc]

/-- Instances of C13: a document without layers, one with an empty layers array and one
whose first layer has no state machine are refused and leave the sample graph alone;
the two-layer sample document is accepted. -/
theorem loadUnityJSON_false_iff_witness :
    StateMachineConfig.LoadUnityJSON Sample.idleRunConfig (JSONValue.object [])
      = (false, Sample.idleRunConfig) ∧
    StateMachineConfig.LoadUnityJSON Sample.idleRunConfig
        (JSONValue.object [("layers", JSONValue.array [])])
      = (false, Sample.idleRunConfig) ∧
    StateMachineConfig.LoadUnityJSON Sample.idleRunConfig
        (JSONValue.object [("layers", JSONValue.array [JSONValue.object []])])
      = (false, Sample.idleRunConfig) ∧
    (StateMachineConfig.LoadUnityJSON Sample.idleRunConfig Sample.unityDocument).1 = true := by
  refine ⟨?_, ?_, ?_, ?_⟩
  · have h := loadUnityJSON_false_iff Sample.idleRunConfig (JSONValue.object [])
    exact Prod.ext (h.1.mpr (Or.inl rfl)) (h.2 (h.1.mpr (Or.inl rfl)))
  · have h := loadUnityJSON_false_iff Sample.idleRunConfig
      (JSONValue.object [("layers", JSONValue.array [])])
    exact Prod.ext (h.1.mpr (Or.inr (Or.inl rfl))) (h.2 (h.1.mpr (Or.inr (Or.inl rfl))))
  · have h := loadUnityJSON_false_iff Sample.idleRunConfig
      (JSONValue.object [("layers", JSONValue.array [JSONValue.object []])])
    have hf := h.1.mpr (Or.inr (Or.inr ⟨JSONValue.object [], [], rfl, rfl⟩))
    exact Prod.ext hf (h.2 hf)
  · have h := loadUnityJSON_false_iff Sample.idleRunConfig Sample.unityDocument
    cases hr : (StateMachineConfig.LoadUnityJSON Sample.idleRunConfig Sample.unityDocument).1
    · rcases h.1.mp hr with h1 | h1 | ⟨first, rest, h1, h2⟩
      · cases h1
      · cases h1
      · injection h1 with h3 h4
        subst h3
        cases h2
    · rfl

/-! ## Counting the states after a load -/

theorem HashMap.Contains_iff_mem_keys {K V : Type} [DecidableEq K] (m : HashMap K V)
    (key : K) : HashMap.Contains m key = true ↔ key ∈ m.map Prod.fst := by
  induction m with
  | nil => simp [HashMap.Contains, HashMap.Find]
  | cons p rest ih =>
    obtain ⟨k, w⟩ := p
    by_cases hk : k = key
    · simp [HashMap.Contains, HashMap.Find, hk]
    · simp only [HashMap.Contains] at ih
      simp [HashMap.Contains, HashMap.Find, hk, ih, Ne.symm hk]

theorem HashMap.keys_Insert {K V : Type} [DecidableEq K] (m : HashMap K V) (key : K)
    (v : V) :
    (HashMap.Insert m (key, v)).map Prod.fst
      = if key ∈ m.map Prod.fst then m.map Prod.fst else m.map Prod.fst ++ [key] := by
  induction m with
  | nil => simp [HashMap.Insert]
  | cons p rest ih =>
    obtain ⟨k, w⟩ := p
    by_cases hk : k = key
    · simp [HashMap.Insert, hk]
    · simp only [HashMap.Insert, hk, if_false, List.map_cons, ih, List.mem_cons, Ne.symm hk,
        false_or]
      split <;> simp

theorem HashMap.keys_Insert_toFinset {K V : Type} [DecidableEq K] (m : HashMap K V)
    (key : K) (v : V) :
    ((HashMap.Insert m (key, v)).map Prod.fst).toFinset
      = insert key (m.map Prod.fst).toFinset := by
  rw [HashMap.keys_Insert]
  split
  · rename_i h
    rw [Finset.insert_eq_of_mem (List.mem_toFinset.mpr h)]
  · ext x
    simp [or_comm]

theorem HashMap.keys_Insert_nodup {K V : Type} [DecidableEq K] (m : HashMap K V)
    (key : K) (v : V) (h : (m.map Prod.fst).Nodup) :
    ((HashMap.Insert m (key, v)).map Prod.fst).Nodup := by
  rw [HashMap.keys_Insert]
  split
  · exact h
  · rename_i hmem
    rw [List.nodup_append]
    refine ⟨h, List.nodup_singleton _, ?_⟩
    intro a ha hb
    rw [List.mem_singleton] at hb
    subst hb
    exact hmem ha

theorem StateMachineConfig.LoadJSON.foldl_stateStep_keys (l : List JSONValue) :
    ∀ G : StateMachineConfig,
      ((List.foldl StateMachineConfig.LoadJSON.stateStep G l).states_.map Prod.fst).toFinset
        = (G.states_.map Prod.fst).toFinset
            ∪ (l.map (fun x => (x.index "name").GetString)).toFinset := by
  induction l with
  | nil => intro G; simp
  | cons x rest ih =>
    intro G
    rw [List.foldl_cons, ih]
    unfold StateMachineConfig.LoadJSON.stateStep
    simp only [HashMap.keys_Insert_toFinset, StateMachineConfig.LoadJSON.buildState_name,
      List.map_cons, List.toFinset_cons]
    ext k
    simp only [Finset.mem_union, Finset.mem_insert]
    tauto

theorem StateMachineConfig.LoadJSON.foldl_stateStep_nodup (l : List JSONValue) :
    ∀ G : StateMachineConfig, (G.states_.map Prod.fst).Nodup →
      ((List.foldl StateMachineConfig.LoadJSON.stateStep G l).states_.map Prod.fst).Nodup := by
  induction l with
  | nil => intro G h; exact h
  | cons x rest ih =>
    intro G h
    rw [List.foldl_cons]
    apply ih
    unfold StateMachineConfig.LoadJSON.stateStep
    exact HashMap.keys_Insert_nodup _ _ _ h

theorem StateMachineConfig.LoadJSON_count (G : StateMachineConfig) (D : JSONValue)
    (h : (G.states_.map Prod.fst).Nodup) :
    (StateMachineConfig.LoadJSON G D).2.GetStatesCount
      = (G.states_.map Prod.fst
          ++ (D.index "states").GetArray.map (fun x => (x.index "name").GetString)).dedup.length := by
  have hn := StateMachineConfig.LoadJSON.foldl_stateStep_nodup (D.index "states").GetArray G h
  have hk := StateMachineConfig.LoadJSON.foldl_stateStep_keys (D.index "states").GetArray G
  unfold StateMachineConfig.GetStatesCount HashMap.Size StateMachineConfig.LoadJSON
  rw [← List.card_toFinset, List.toFinset_append, ← hk, List.toFinset_card_of_nodup hn,
    List.length_map]

theorem StateMachineConfig.LoadJSON.buildState_no_transitions (e : JSONValue)
    (h : (e.index "transitions").GetArray = []) (t : String) :
    StateMachineState.CanTransit (StateMachineConfig.LoadJSON.buildState e) t = false := by
  cases hc : StateMachineState.CanTransit (StateMachineConfig.LoadJSON.buildState e) t with
  | false => rfl
  | true =>
    obtain ⟨tj, hmem, _⟩ := (StateMachineConfig.LoadJSON.buildState_CanTransit e t).mp hc
    rw [h] at hmem
    cases hmem

/-- C11, as the code has it. For every document loaded into an empty graph, `LoadJSON`
returns true and `GetStatesCount` is the number of distinct names among the entries of
the `states` array; and every entry that has no transition entries and is the last
entry of its name yields `CanTransit name t` = false for every trigger `t`. -/
theorem loadJSON_into_empty (D : JSONValue) :
    (StateMachineConfig.LoadJSON StateMachineConfig.empty D).1 = true ∧
    (StateMachineConfig.LoadJSON StateMachineConfig.empty D).2.GetStatesCount
      = ((D.index "states").GetArray.map (fun x => (x.index "name").GetString)).dedup.length ∧
    (∀ (pre post : List JSONValue) (e : JSONValue) (t : String),
      (D.index "states").GetArray = pre ++ e :: post →
      (∀ x ∈ post, (x.index "name").GetString ≠ (e.index "name").GetString) →
      (e.index "transitions").GetArray = [] →
      StateMachineConfig.CanTransit (StateMachineConfig.LoadJSON StateMachineConfig.empty D).2
          (e.index "name").GetString t
        = some (false, (StateMachineConfig.LoadJSON StateMachineConfig.empty D).2)) := by
  refine ⟨rfl, ?_, ?_⟩
  · have h := StateMachineConfig.LoadJSON_count StateMachineConfig.empty D
      (by simp [StateMachineConfig.empty])
    simpa [StateMachineConfig.empty] using h
  · intro pre post e t hsplit hlast hnone
    have hfind := StateMachineConfig.LoadJSON_Find_last StateMachineConfig.empty D pre post e
      _ hsplit rfl hlast
    simp [StateMachineConfig.CanTransit, hfind,
      StateMachineConfig.LoadJSON.buildState_no_transitions e hnone t]

/-- Instance of C11 as amended: the document with the single state Idle and no
transitions gives one state, and Idle cannot fire any trigger. -/
theorem loadJSON_into_empty_witness :
    (StateMachineConfig.LoadJSON StateMachineConfig.empty Sample.idleOnlyDocument).1 = true ∧
    (StateMachineConfig.LoadJSON StateMachineConfig.empty
      Sample.idleOnlyDocument).2.GetStatesCount = 1 ∧
    (∀ t : String,
      StateMachineConfig.CanTransit
          (StateMachineConfig.LoadJSON StateMachineConfig.empty Sample.idleOnlyDocument).2
          "Idle" t
        = some (false,
            (StateMachineConfig.LoadJSON StateMachineConfig.empty
              Sample.idleOnlyDocument).2)) := by
  have h := loadJSON_into_empty Sample.idleOnlyDocument
  refine ⟨h.1, ?_, ?_⟩
  · rw [h.2.1]
    decide
  · intro t
    exact h.2.2 [] [] (Sample.state "Idle" "idle" []) t rfl (by simp) rfl

/-- C11 fails as stated. In the sample document with two entries named Idle, the
earlier entry has no transition entries, yet after loading the document into an empty
graph `CanTransit "Idle" "run"` is true: the later entry of the same name has replaced
the state built from the earlier one. -/
theorem loadJSON_empty_entry_shadowed :
    (Sample.shadowedIdleDocument.index "states").GetArray
      = [] ++ Sample.state "Idle" "idle" []
          :: [Sample.state "Idle" "idle" [Sample.transition "Run" [Sample.condition "run"]],
              Sample.state "Run" "run" []] ∧
    ((Sample.state "Idle" "idle" []).index "name").GetString = "Idle" ∧
    ((Sample.state "Idle" "idle" []).index "transitions").GetArray = [] ∧
    StateMachineConfig.CanTransit
        (StateMachineConfig.LoadJSON StateMachineConfig.empty Sample.shadowedIdleDocument).2
        "Idle" "run"
      = some (true,
          (StateMachineConfig.LoadJSON StateMachineConfig.empty
            Sample.shadowedIdleDocument).2) :=
  ⟨rfl, rfl, rfl, by decide⟩

/-- C14 (the native loader overwrites by name). After `LoadJSON` of the document `D`
into the graph `G`: (i) under every name that no entry of `D` has, the graph stores
what it stored before; (ii) under the name of an entry `e` that is the last of its name
it stores the state built from `e` alone, whose trigger keys are exactly the first
parameters of the transition entries of `e` with a non-empty `conditions` array;
(iii) when `G` has one node per name, `GetStatesCount` is the number of distinct names
among the names of `G` and of the entries of `D`. -/
theorem loadJSON_overwrites (G : StateMachineConfig) (D : JSONValue) :
    (∀ k : String,
      k ∉ (D.index "states").GetArray.map (fun x => (x.index "name").GetString) →
      HashMap.Find (StateMachineConfig.LoadJSON G D).2.states_ k = HashMap.Find G.states_ k) ∧
    (∀ (pre post : List JSONValue) (e : JSONValue),
      (D.index "states").GetArray = pre ++ e :: post →
      (∀ x ∈ post, (x.index "name").GetString ≠ (e.index "name").GetString) →
      HashMap.Find (StateMachineConfig.LoadJSON G D).2.states_ (e.index "name").GetString
          = some (some (StateMachineConfig.LoadJSON.buildState e)) ∧
        ∀ p : String,
          HashMap.Contains (StateMachineConfig.LoadJSON.buildState e).transitions_ p = true
            ↔ ∃ tj ∈ (e.index "transitions").GetArray, ∃ first rest,
                (tj.index "conditions").GetArray = first :: rest
                  ∧ (first.index "parameter").GetString = p) ∧
    ((G.states_.map Prod.fst).Nodup →
      (StateMachineConfig.LoadJSON G D).2.GetStatesCount
        = (G.states_.map Prod.fst
            ++ (D.index "states").GetArray.map
                (fun x => (x.index "name").GetString)).dedup.length) := by
  refine ⟨?_, ?_, StateMachineConfig.LoadJSON_count G D⟩
  · intro k hk
    exact StateMachineConfig.LoadJSON.foldl_stateStep_other k _
      (fun x hx heq => hk (List.mem_map.mpr ⟨x, hx, heq⟩)) G
  · intro pre post e hsplit hlast
    exact ⟨StateMachineConfig.LoadJSON_Find_last G D pre post e _ hsplit rfl hlast,
      fun p => StateMachineConfig.LoadJSON.buildState_CanTransit e p⟩

/-- Instances of C14: loading the sample document with two Idle entries over the
sample graph leaves two states, stores under Idle the state built from the later Idle
entry, and leaves a name that occurs nowhere without an entry. -/
theorem loadJSON_overwrites_witness :
    (StateMachineConfig.LoadJSON Sample.idleRunConfig
      Sample.repeatedIdleDocument).2.GetStatesCount = 2 ∧
    HashMap.Find (StateMachineConfig.LoadJSON Sample.idleRunConfig
        Sample.repeatedIdleDocument).2.states_ "Idle"
      = some (some (StateMachineConfig.LoadJSON.buildState
          (Sample.state "Idle" "idle"
            [Sample.transition "Run" [],
             Sample.transition "Run" [Sample.condition "run", Sample.condition "fast"]]))) ∧
    HashMap.Find (StateMachineConfig.LoadJSON Sample.idleRunConfig
        Sample.repeatedIdleDocument).2.states_ "Walk"
      = HashMap.Find Sample.idleRunConfig.states_ "Walk" := by
  have h := loadJSON_overwrites Sample.idleRunConfig Sample.repeatedIdleDocument
  refine ⟨?_, ?_, ?_⟩
  · rw [h.2.2 (by decide)]
    decide
  · exact (h.2.1
      [Sample.state "Idle" "idle" [Sample.transition "Run" [Sample.condition "old"]]]
      [Sample.state "Run" "run" []]
      (Sample.state "Idle" "idle"
        [Sample.transition "Run" [],
         Sample.transition "Run" [Sample.condition "run", Sample.condition "fast"]])
      rfl (by decide)).1
  · exact h.1 "Walk" (by decide)

/-! ## Destinations that the loader did not check -/

/-- C16 (the native loader does not validate destinations). Loading the sample document
with the single state Idle and a transition on run to Run, for which there is no state
entry, into an empty graph returns true. In the loaded graph `CanTransit "Idle" "run"`
is true and there is no entry named Run. An instance constructed at Idle that fires
run passes the `CanTransit` test of `Transit`, and the lookup of the destination
yields no state: without an observer the call returns true with a null current-state
pointer, with an observer attached it has no defined outcome. -/
theorem loadJSON_accepts_dangling_destination :
    StateMachineConfig.LoadJSON StateMachineConfig.empty Sample.danglingDocument
      = (true, Sample.danglingConfig) ∧
    StateMachineConfig.CanTransit Sample.danglingConfig "Idle" "run"
      = some (true, Sample.danglingConfig) ∧
    HashMap.Contains Sample.danglingConfig.states_ "Run" = false ∧
    (∃ current transition,
      (StateMachine.construct none Sample.danglingConfig "Idle").2.stateCurrent_
        = some current ∧
      StateMachineState.CanTransit current "run" = true ∧
      HashMap.Find current.transitions_ "run" = some transition ∧
      transition.stateTo_ = "Run" ∧
      HashMap.Find Sample.danglingConfig.states_ transition.stateTo_ = none) ∧
    (∃ out,
      StateMachine.Transit Sample.danglingConfig
        (StateMachine.construct none Sample.danglingConfig "Idle").2 "run" = some out ∧
      out.result = true ∧
      out.machine.stateCurrent_ = none) ∧
    StateMachine.Transit Sample.danglingConfig Sample.observedAtDanglingIdle "run" = none :=
  ⟨rfl, by decide, by decide,
    ⟨Sample.idleState, Sample.runTransition, by decide, by decide, by decide, by decide,
      by decide⟩,
    ⟨_, rfl, by decide, by decide⟩, by decide⟩

/-! ## What an instance does to the graph -/

/-- C17, as the code has it. Let the graph store a state under the initial name `n`,
and let the trigger `t` either be unknown to that state or lead to a name under which
the graph stores a state. Then constructing an instance at `n` and calling
`Transit t` on it has an outcome, and the graph after the constructor and the graph
after the call are both the graph before: same entries, same count, same transitions
of every state. -/
theorem instance_leaves_graph (delegate0 : Option StateMachineDelegate)
    (G : StateMachineConfig) (n t : String) (state : StateMachineState)
    (hinit : HashMap.Find G.states_ n = some (some state))
    (hdest : ∀ transition, HashMap.Find state.transitions_ t = some transition →
      G.hasState transition.stateTo_ = true) :
    (StateMachine.construct delegate0 G n).1 = G ∧
    ∃ out,
      StateMachine.Transit (StateMachine.construct delegate0 G n).1
        (StateMachine.construct delegate0 G n).2 t = some out ∧
      out.config = G ∧
      out.config.GetStatesCount = G.GetStatesCount := by
  rw [StateMachine.construct_of_state delegate0 G n state hinit]
  refine ⟨rfl, ?_⟩
  cases htr : HashMap.Find state.transitions_ t with
  | none =>
    exact ⟨_, StateMachine.Transit_stay G _ state t rfl htr, rfl, rfl⟩
  | some transition =>
    have hhas := hdest transition htr
    simp only [StateMachineConfig.hasState] at hhas
    cases hf : HashMap.Find G.states_ transition.stateTo_ with
    | none => simp [hf] at hhas
    | some ptr =>
      cases ptr with
      | none => simp [hf] at hhas
      | some destination =>
        exact ⟨_, StateMachine.Transit_move G _ state destination transition t rfl htr hf,
          rfl, rfl⟩

/-- Witness of C17 as amended: an instance constructed at Idle on the sample graph and
fired with run. -/
theorem instance_leaves_graph_witness :
    (StateMachine.construct (some 7) Sample.idleRunConfig "Idle").1 = Sample.idleRunConfig ∧
    ∃ out,
      StateMachine.Transit (StateMachine.construct (some 7) Sample.idleRunConfig "Idle").1
        (StateMachine.construct (some 7) Sample.idleRunConfig "Idle").2 "run" = some out ∧
      out.config = Sample.idleRunConfig ∧
      out.config.GetStatesCount = Sample.idleRunConfig.GetStatesCount :=
  instance_leaves_graph (some 7) Sample.idleRunConfig "Idle" "run" Sample.idleState
    (by decide) (by
      intro transition h
      have h1 : transition = Sample.runTransition := by
        simpa [Sample.idleState, Sample.runTransition, HashMap.Find] using h.symm
      subst h1
      decide)

/-- C17 fails as stated. On the graph loaded from the sample document with the dangling
destination, which has one entry, an instance constructed at Idle leaves the graph
alone, but its call `Transit "run"` returns true and leaves a graph with two entries:
the lookup of the destination has created an entry Run that holds a null pointer. The
constructor does the same for an initial name without entry: on the empty graph it
leaves one entry. -/
theorem instance_adds_entry_to_graph :
    Sample.danglingConfig.GetStatesCount = 1 ∧
    HashMap.Contains Sample.danglingConfig.states_ "Run" = false ∧
    (StateMachine.construct none Sample.danglingConfig "Idle").1 = Sample.danglingConfig ∧
    (∃ out,
      StateMachine.Transit (StateMachine.construct none Sample.danglingConfig "Idle").1
        (StateMachine.construct none Sample.danglingConfig "Idle").2 "run" = some out ∧
      out.result = true ∧
      out.config.GetStatesCount = 2 ∧
      HashMap.Find out.config.states_ "Run" = some none) ∧
    StateMachineConfig.empty.GetStatesCount = 0 ∧
    (StateMachine.construct none StateMachineConfig.empty "Idle").1.GetStatesCount = 1 :=
  ⟨by decide, by decide, by decide, ⟨_, rfl, by decide, by decide, by decide⟩,
    by decide, by decide⟩

/-! ## The transitions the loader stores -/

theorem StateMachineState.Find_after_AddTransition_of_some (s : StateMachineState)
    (t tr : StateMachineTransition) (p : String)
    (h : HashMap.Find s.transitions_ p = some tr) :
    HashMap.Find (StateMachineState.AddTransition s t).2.transitions_ p = some tr := by
  by_cases hc : HashMap.Contains s.transitions_ t.name_ = true
  · rw [StateMachineState.AddTransition_of_Contains s t hc]
    exact h
  · rw [StateMachineState.AddTransition_of_not_Contains s t (by simpa using hc)]
    have hne : t.name_ ≠ p := by
      intro heq
      rw [heq] at hc
      exact hc (HashMap.Contains_of_Find _ _ _ h)
    show HashMap.Find (HashMap.Insert s.transitions_ (t.name_, t)) p = some tr
    rw [HashMap.Find_Insert_other _ _ _ _ hne]
    exact h

theorem StateMachineState.Find_after_AddTransition_of_ne (s : StateMachineState)
    (t : StateMachineTransition) (p : String) (hne : t.name_ ≠ p) :
    HashMap.Find (StateMachineState.AddTransition s t).2.transitions_ p
      = HashMap.Find s.transitions_ p := by
  by_cases hc : HashMap.Contains s.transitions_ t.name_ = true
  · rw [StateMachineState.AddTransition_of_Contains s t hc]
  · rw [StateMachineState.AddTransition_of_not_Contains s t (by simpa using hc)]
    exact HashMap.Find_Insert_other _ _ _ _ hne

theorem StateMachineConfig.LoadJSON.transitionStep_keeps (s : StateMachineState)
    (tj : JSONValue) (tr : StateMachineTransition) (p : String)
    (h : HashMap.Find s.transitions_ p = some tr) :
    HashMap.Find (StateMachineConfig.LoadJSON.transitionStep s tj).transitions_ p
      = some tr := by
  unfold StateMachineConfig.LoadJSON.transitionStep
  cases (tj.index "conditions").GetArray with
  | nil => exact h
  | cons first rest => exact StateMachineState.Find_after_AddTransition_of_some _ _ _ _ h

theorem StateMachineConfig.LoadJSON.foldl_transitionStep_keeps (l : List JSONValue)
    (tr : StateMachineTransition) (p : String) :
    ∀ s : StateMachineState, HashMap.Find s.transitions_ p = some tr →
      HashMap.Find (List.foldl StateMachineConfig.LoadJSON.transitionStep s l).transitions_ p
        = some tr := by
  induction l with
  | nil => intro s h; exact h
  | cons tj rest ih =>
    intro s h
    rw [List.foldl_cons]
    exact ih _ (StateMachineConfig.LoadJSON.transitionStep_keeps s tj tr p h)

theorem StateMachineConfig.LoadJSON.transitionStep_other (s : StateMachineState)
    (tj : JSONValue) (p : String)
    (h : ∀ f r, (tj.index "conditions").GetArray = f :: r →
      (f.index "parameter").GetString ≠ p) :
    HashMap.Find (StateMachineConfig.LoadJSON.transitionStep s tj).transitions_ p
      = HashMap.Find s.transitions_ p := by
  unfold StateMachineConfig.LoadJSON.transitionStep
  cases hc : (tj.index "conditions").GetArray with
  | nil => rfl
  | cons first rest =>
    exact StateMachineState.Find_after_AddTransition_of_ne _ _ _ (h first rest hc)

theorem StateMachineConfig.LoadJSON.foldl_transitionStep_other (l : List JSONValue)
    (p : String)
    (h : ∀ x ∈ l, ∀ f r, (x.index "conditions").GetArray = f :: r →
      (f.index "parameter").GetString ≠ p) :
    ∀ s : StateMachineState,
      HashMap.Find (List.foldl StateMachineConfig.LoadJSON.transitionStep s l).transitions_ p
        = HashMap.Find s.transitions_ p := by
  induction l with
  | nil => intro s; rfl
  | cons tj rest ih =>
    intro s
    rw [List.foldl_cons, ih (fun x hx => h x (List.mem_cons_of_mem _ hx)),
      StateMachineConfig.LoadJSON.transitionStep_other s tj p
        (h tj (List.mem_cons_self _ _))]

theorem StateMachineConfig.LoadJSON.transitionStep_new (s : StateMachineState)
    (tj first : JSONValue) (rest : List JSONValue)
    (hcond : (tj.index "conditions").GetArray = first :: rest)
    (hfree : HashMap.Contains s.transitions_ (first.index "parameter").GetString = false) :
    HashMap.Find (StateMachineConfig.LoadJSON.transitionStep s tj).transitions_
        (first.index "parameter").GetString
      = some
          { name_ := (first.index "parameter").GetString
            stateFrom_ := s.name_
            stateTo_ := (tj.index "destinationState").GetString
            offset_ := (tj.index "offset").GetFloat
            duration_ := (tj.index "duration").GetFloat
            hasExitTime_ := (tj.index "duration").GetFloat.toBool
            exitTime_ := (tj.index "exitTime").GetFloat } := by
  unfold StateMachineConfig.LoadJSON.transitionStep
  simp only [hcond]
  rw [StateMachineState.AddTransition_of_not_Contains _ _ hfree]
  exact HashMap.Find_Insert_self _ _ _

/-- C19 (content of the loaded transitions; the first entry wins). Let `tj` be the
first transition entry of the state entry `e` whose `conditions` array is not empty
and has the first parameter `p`. In the state the loader builds from `e`, the
transition stored under the trigger `p` is the one built from `tj`: its trigger is
`p`, its source is the name of `e`, its destination is the `destinationState` of `tj`,
and its numbers are those of `tj` (`hasExitTime_` being read from `duration`).
Whatever entries follow `tj`, with the same first parameter or not, do not change it.
When `e` is the last entry of its name in a document, that state is the one the graph
stores under the name after `LoadJSON`. -/
theorem loadJSON_first_entry_wins (e tj first : JSONValue)
    (rest pre post : List JSONValue) (p : String)
    (hsplit : (e.index "transitions").GetArray = pre ++ tj :: post)
    (hcond : (tj.index "conditions").GetArray = first :: rest)
    (hparam : (first.index "parameter").GetString = p)
    (hfirst : ∀ x ∈ pre, ∀ f r, (x.index "conditions").GetArray = f :: r →
      (f.index "parameter").GetString ≠ p) :
    HashMap.Find (StateMachineConfig.LoadJSON.buildState e).transitions_ p
      = some
          { name_ := p
            stateFrom_ := (e.index "name").GetString
            stateTo_ := (tj.index "destinationState").GetString
            offset_ := (tj.index "offset").GetFloat
            duration_ := (tj.index "duration").GetFloat
            hasExitTime_ := (tj.index "duration").GetFloat.toBool
            exitTime_ := (tj.index "exitTime").GetFloat } ∧
    (∀ (G : StateMachineConfig) (D : JSONValue) (before after : List JSONValue),
      (D.index "states").GetArray = before ++ e :: after →
      (∀ x ∈ after, (x.index "name").GetString ≠ (e.index "name").GetString) →
      HashMap.Find (StateMachineConfig.LoadJSON G D).2.states_ (e.index "name").GetString
        = some (some (StateMachineConfig.LoadJSON.buildState e))) := by
  constructor
  · unfold StateMachineConfig.LoadJSON.buildState
    simp only [hsplit, List.foldl_append, List.foldl_cons]
    apply StateMachineConfig.LoadJSON.foldl_transitionStep_keeps
    have hpre := StateMachineConfig.LoadJSON.foldl_transitionStep_other pre p hfirst
      { name_ := (e.index "name").GetString
        speed_ := (e.index "speed").GetFloat
        animationClip_ := (e.index "animationClip").GetString
        transitions_ := [] }
    have hname := StateMachineConfig.LoadJSON.foldl_transitionStep_name pre
      { name_ := (e.index "name").GetString
        speed_ := (e.index "speed").GetFloat
        animationClip_ := (e.index "animationClip").GetString
        transitions_ := [] }
    have hnone : HashMap.Contains
        (List.foldl StateMachineConfig.LoadJSON.transitionStep
          { name_ := (e.index "name").GetString
            speed_ := (e.index "speed").GetFloat
            animationClip_ := (e.index "animationClip").GetString
            transitions_ := [] } pre).transitions_ p = false := by
      simp [HashMap.Contains, hpre, HashMap.Find]
    subst hparam
    have hnew := StateMachineConfig.LoadJSON.transitionStep_new _ tj first rest hcond hnone
    rw [hname] at hnew
    exact hnew
  · intro G D before after hD hlast
    exact StateMachineConfig.LoadJSON_Find_last G D before after e _ hD rfl hlast

/-- Witness of C19: in the sample entry with two transitions on run, the earlier one,
to Run, is the one stored. -/
theorem loadJSON_first_entry_wins_witness :
    HashMap.Find (StateMachineConfig.LoadJSON.buildState Sample.twiceRunEntry).transitions_
        "run" = some Sample.runTransition := by
  have h := (loadJSON_first_entry_wins Sample.twiceRunEntry
    (Sample.transition "Run" [Sample.condition "run"]) (Sample.condition "run") []
    [Sample.transition "Run" []] [Sample.transition "Walk" [Sample.condition "run"]]
    "run" rfl rfl rfl (by
      intro x hx f r hc
      rw [List.mem_singleton] at hx
      subst hx
      simp [Sample.transition, JSONValue.index, HashMap.Find, JSONValue.GetArray] at hc)).1
  rw [h]
  decide

/-! ## The runner -/

theorem HashMap.Erase_of_not_Contains {K V : Type} [DecidableEq K] (m : HashMap K V)
    (key : K) (h : HashMap.Contains m key = false) : HashMap.Erase m key = m := by
  induction m with
  | nil => rfl
  | cons p rest ih =>
    obtain ⟨k, w⟩ := p
    by_cases hk : k = key
    · simp [HashMap.Contains, HashMap.Find, hk] at h
    · simp only [HashMap.Contains, HashMap.Find, hk, if_false] at h
      simp only [HashMap.Contains] at ih
      simp [HashMap.Erase, hk, ih h]

theorem HashMap.Erase_sublist {K V : Type} [DecidableEq K] (m : HashMap K V) (key : K) :
    List.Sublist (HashMap.Erase m key) m := by
  induction m with
  | nil => exact List.Sublist.refl _
  | cons p rest ih =>
    obtain ⟨k, w⟩ := p
    by_cases hk : k = key
    · simp only [HashMap.Erase, hk, if_true]
      exact List.sublist_cons_self _ _
    · simp only [HashMap.Erase, hk, if_false]
      exact ih.cons₂ _

theorem StateMachineRunner.Update.loop_spec (timeStep : Float32)
    (l : List (Option Nat × Bool)) :
    ∀ memory : Nat → StateMachine, none ∉ l.map Prod.fst →
      ∃ out, StateMachineRunner.Update.loop timeStep l memory = some out ∧
        out.memory = memory ∧ out.calls = [] ∧ out.visited.map some = l.map Prod.fst := by
  induction l with
  | nil =>
    intro memory _
    exact ⟨_, rfl, rfl, rfl, rfl⟩
  | cons p rest ih =>
    intro memory hnull
    obtain ⟨key, flag⟩ := p
    cases key with
    | none => simp at hnull
    | some address =>
      have hrest : none ∉ rest.map Prod.fst := by
        intro h
        exact hnull (by simp [List.mem_map] at h ⊢; exact h)
      obtain ⟨out, hout, hmem, hcalls, hvis⟩ := ih memory hrest
      refine ⟨{ memory := out.memory, visited := address :: out.visited,
                calls := [] ++ out.calls }, ?_, hmem, by simp [hcalls], by simp [hvis]⟩
      simp [StateMachineRunner.Update.loop, StateMachine.OnUpdate, hout]

theorem StateMachineRunner.Update.loop_memory (timeStep : Float32)
    (l : List (Option Nat × Bool)) :
    ∀ (memory : Nat → StateMachine) (out : UpdateOutcome),
      StateMachineRunner.Update.loop timeStep l memory = some out →
        out.memory = memory ∧ out.calls = [] := by
  induction l with
  | nil =>
    intro memory out h
    simp only [StateMachineRunner.Update.loop, Option.some.injEq] at h
    subst h
    exact ⟨rfl, rfl⟩
  | cons p rest ih =>
    intro memory out h
    obtain ⟨key, flag⟩ := p
    cases key with
    | none => simp [StateMachineRunner.Update.loop] at h
    | some address =>
      simp only [StateMachineRunner.Update.loop, StateMachine.OnUpdate,
        Function.update_eq_self] at h
      cases hr : StateMachineRunner.Update.loop timeStep rest memory with
      | none => simp [hr] at h
      | some out1 =>
        simp only [hr, Option.some.injEq] at h
        subst h
        obtain ⟨h1, h2⟩ := ih memory out1 hr
        exact ⟨h1, by simp [h2]⟩

theorem StateMachineRunner.performAll_registry (calls : List RunnerCall) :
    ∀ (R : StateMachineRunner) (memory : Nat → StateMachine),
      (R.stateMachines_.map Prod.fst).Nodup → none ∉ R.stateMachines_.map Prod.fst →
      ∃ R1, StateMachineRunner.performAll R memory calls = some (R1, memory) ∧
        (R1.stateMachines_.map Prod.fst).Nodup ∧ none ∉ R1.stateMachines_.map Prod.fst := by
  induction calls with
  | nil =>
    intro R memory h1 h2
    exact ⟨R, rfl, h1, h2⟩
  | cons call rest ih =>
    intro R memory h1 h2
    cases call with
    | run address =>
      have hn : ((R.RunStateMachine (some address)).stateMachines_.map Prod.fst).Nodup :=
        HashMap.keys_Insert_nodup _ _ _ h1
      have hnull : none ∉ (R.RunStateMachine (some address)).stateMachines_.map Prod.fst := by
        unfold StateMachineRunner.RunStateMachine
        rw [HashMap.keys_Insert]
        split
        · exact h2
        · intro h
          rcases List.mem_append.mp h with h | h
          · exact h2 h
          · simp at h
      obtain ⟨R1, hrun, hk⟩ := ih (R.RunStateMachine (some address)) memory hn hnull
      exact ⟨R1, by simp [StateMachineRunner.performAll, StateMachineRunner.perform, hrun], hk⟩
    | stop address =>
      have hsub : List.Sublist
          ((R.StopStateMachine (some address)).stateMachines_.map Prod.fst)
          (R.stateMachines_.map Prod.fst) :=
        (HashMap.Erase_sublist R.stateMachines_ (some address)).map Prod.fst
      have hn : ((R.StopStateMachine (some address)).stateMachines_.map Prod.fst).Nodup :=
        h1.sublist hsub
      have hnull : none ∉ (R.StopStateMachine (some address)).stateMachines_.map Prod.fst :=
        fun h => h2 (hsub.subset h)
      obtain ⟨R1, hrun, hk⟩ := ih (R.StopStateMachine (some address)) memory hn hnull
      exact ⟨R1, by simp [StateMachineRunner.performAll, StateMachineRunner.perform, hrun], hk⟩
    | update timeStep =>
      obtain ⟨out, hout, hmem, _, _⟩ :=
        StateMachineRunner.Update.loop_spec timeStep R.stateMachines_ memory h2
      obtain ⟨R1, hrun, hk⟩ := ih R memory h1 h2
      refine ⟨R1, ?_, hk⟩
      simp [StateMachineRunner.performAll, StateMachineRunner.perform,
        StateMachineRunner.Update, hout, hmem, hrun]

theorem StateMachineRunner.Update_visits (R : StateMachineRunner)
    (memory : Nat → StateMachine) (timeStep : Float32)
    (h1 : (R.stateMachines_.map Prod.fst).Nodup)
    (h2 : none ∉ R.stateMachines_.map Prod.fst) :
    ∃ out, R.Update memory timeStep = some out ∧ out.visited.Nodup ∧
      ∀ address : Nat, address ∈ out.visited
        ↔ HashMap.Contains R.stateMachines_ (some address) = true := by
  obtain ⟨out, hout, _, _, hvis⟩ :=
    StateMachineRunner.Update.loop_spec timeStep R.stateMachines_ memory h2
  refine ⟨out, hout, ?_, ?_⟩
  · rw [← hvis] at h1
    exact List.Nodup.of_map _ h1
  · intro address
    rw [HashMap.Contains_iff_mem_keys, ← hvis]
    exact (List.mem_map_of_injective (Option.some_injective _)).symm

/-- C15 (the registry of the runner is a set). (1) `RunStateMachine i` twice leaves the
runner that one `RunStateMachine i` leaves. (2) `StopStateMachine i` on a runner that has
no entry for `i` leaves the runner as it was. (3) Start from a runner with one node per
key and no null key (a new runner is one) and make any sequence of `RunStateMachine`,
`StopStateMachine` and `Update` calls on instances in memory: the sequence has an
outcome, and an `Update` after it calls `OnUpdate` on the instances it visits once each
(no address occurs twice among the visited), and visits exactly the instances that have
an entry in `stateMachines_`. -/
theorem runner_registry_is_set (R : StateMachineRunner) (i : Option Nat) :
    (R.RunStateMachine i).RunStateMachine i = R.RunStateMachine i ∧
    (HashMap.Contains R.stateMachines_ i = false → R.StopStateMachine i = R) ∧
    (∀ (memory : Nat → StateMachine) (calls : List RunnerCall) (timeStep : Float32),
      (R.stateMachines_.map Prod.fst).Nodup → none ∉ R.stateMachines_.map Prod.fst →
      ∃ R1 out,
        StateMachineRunner.performAll R memory calls = some (R1, memory) ∧
        R1.Update memory timeStep = some out ∧
        out.visited.Nodup ∧
        ∀ address : Nat, address ∈ out.visited
          ↔ HashMap.Contains R1.stateMachines_ (some address) = true) := by
  refine ⟨?_, ?_, ?_⟩
  · unfold StateMachineRunner.RunStateMachine
    simp only
    rw [HashMap.Insert_of_Find _ _ _ (HashMap.Find_Insert_self _ _ _)]
  · intro h
    unfold StateMachineRunner.StopStateMachine
    rw [HashMap.Erase_of_not_Contains _ _ h]
  · intro memory calls timeStep h1 h2
    obtain ⟨R1, hrun, hn, hnull⟩ :=
      StateMachineRunner.performAll_registry calls R memory h1 h2
    obtain ⟨out, hout, hnodup, hmem⟩ :=
      StateMachineRunner.Update_visits R1 memory timeStep hn hnull
    exact ⟨R1, out, hrun, hout, hnodup, hmem⟩

/-- Instance of C15: on a new runner, the instance at address 3 is started twice, the
one at 5 is started and stopped, the one at 9 is stopped without having been started
and the one at 8 is started; the next `Update` visits 3 and 8, once each. -/
theorem runner_registry_is_set_witness :
    ∃ R1 out,
      StateMachineRunner.performAll StateMachineRunner.empty Sample.memory
        [RunnerCall.run 3, RunnerCall.run 5, RunnerCall.run 3, RunnerCall.stop 9,
         RunnerCall.stop 5, RunnerCall.run 8] = some (R1, Sample.memory) ∧
      R1.Update Sample.memory ⟨0⟩ = some out ∧
      R1 = { stateMachines_ := [(some 3, true), (some 8, true)] } ∧
      out.visited = [3, 8] := by
  obtain ⟨R1, out, hrun, hout, _, _⟩ :=
    (runner_registry_is_set StateMachineRunner.empty none).2.2 Sample.memory
      [RunnerCall.run 3, RunnerCall.run 5, RunnerCall.run 3, RunnerCall.stop 9,
       RunnerCall.stop 5, RunnerCall.run 8] ⟨0⟩ (by decide) (by decide)
  have hR : R1 = { stateMachines_ := [(some 3, true), (some 8, true)] } := by
    have h : StateMachineRunner.performAll StateMachineRunner.empty Sample.memory
        [RunnerCall.run 3, RunnerCall.run 5, RunnerCall.run 3, RunnerCall.stop 9,
         RunnerCall.stop 5, RunnerCall.run 8]
        = some ({ stateMachines_ := [(some 3, true), (some 8, true)] }, Sample.memory) := rfl
    rw [h] at hrun
    injection hrun with hrun
    exact (congrArg Prod.fst hrun).symm
  refine ⟨R1, out, hrun, hout, hR, ?_⟩
  subst hR
  have h : StateMachineRunner.Update
      { stateMachines_ := [(some 3, true), (some 8, true)] } Sample.memory ⟨0⟩
      = some { memory := Function.update (Function.update Sample.memory 3 (Sample.memory 3))
                 8 (Function.update Sample.memory 3 (Sample.memory 3) 8),
               visited := [3, 8], calls := [] } := rfl
  rw [h] at hout
  injection hout with hout
  rw [← hout]

/-- C18 (only a trigger moves the current state). `OnUpdate` returns the instance as it
was and makes no observer call. An `Update` of a runner that has an outcome leaves the
memory of the instances as it was and makes no observer call, and it has an outcome
whenever no key of the runner is null. A `RunStateMachine`, `StopStateMachine` or
`Update` call leaves `GetCurrentState` of the instance at every address as it was. -/
theorem only_transit_moves_current :
    (∀ (self : StateMachine) (time : Float32), self.OnUpdate time = (self, [])) ∧
    (∀ (R : StateMachineRunner) (memory : Nat → StateMachine) (timeStep : Float32)
        (out : UpdateOutcome),
      R.Update memory timeStep = some out → out.memory = memory ∧ out.calls = []) ∧
    (∀ (R : StateMachineRunner) (memory : Nat → StateMachine) (timeStep : Float32),
      none ∉ R.stateMachines_.map Prod.fst → ∃ out, R.Update memory timeStep = some out) ∧
    (∀ (R R1 : StateMachineRunner) (memory memory1 : Nat → StateMachine) (call : RunnerCall),
      R.perform memory call = some (R1, memory1) →
      ∀ address : Nat,
        (memory1 address).GetCurrentState = (memory address).GetCurrentState) := by
  refine ⟨fun _ _ => rfl, ?_, ?_, ?_⟩
  · intro R memory timeStep out h
    exact StateMachineRunner.Update.loop_memory timeStep R.stateMachines_ memory out h
  · intro R memory timeStep hnull
    obtain ⟨out, hout, _⟩ :=
      StateMachineRunner.Update.loop_spec timeStep R.stateMachines_ memory hnull
    exact ⟨out, hout⟩
  · intro R R1 memory memory1 call h address
    cases call with
    | run a =>
      simp only [StateMachineRunner.perform, Option.some.injEq, Prod.mk.injEq] at h
      rw [← h.2]
    | stop a =>
      simp only [StateMachineRunner.perform, Option.some.injEq, Prod.mk.injEq] at h
      rw [← h.2]
    | update timeStep =>
      simp only [StateMachineRunner.perform] at h
      cases hu : R.Update memory timeStep with
      | none => simp [hu] at h
      | some out =>
        simp only [hu, Option.some.injEq, Prod.mk.injEq] at h
        rw [← h.2,
          (StateMachineRunner.Update.loop_memory timeStep R.stateMachines_ memory out hu).1]

/-! ## Graphs built without a loader -/

theorem HashMap.mem_Insert {K V : Type} [DecidableEq K] (m : HashMap K V) (key : K)
    (v : V) (x : K × V) (h : x ∈ HashMap.Insert m (key, v)) : x = (key, v) ∨ x ∈ m := by
  induction m with
  | nil =>
    simp only [HashMap.Insert, List.mem_singleton] at h
    exact Or.inl h
  | cons p rest ih =>
    obtain ⟨k, w⟩ := p
    by_cases hk : k = key
    · subst hk
      simp only [HashMap.Insert, if_true, List.mem_cons] at h
      rcases h with h | h
      · exact Or.inl h
      · exact Or.inr (List.mem_cons_of_mem _ h)
    · simp only [HashMap.Insert, hk, if_false, List.mem_cons] at h
      rcases h with h | h
      · exact Or.inr (h ▸ List.mem_cons_self _ _)
      · rcases ih h with h1 | h1
        · exact Or.inl h1
        · exact Or.inr (List.mem_cons_of_mem _ h1)

theorem StateMachineConfig.wellFormed_iff (G : StateMachineConfig) :
    G.wellFormed = true
      ↔ ∀ p ∈ G.states_, ∃ state, p.2 = some state ∧ state.name_ = p.1 ∧
          ∀ q ∈ state.transitions_,
            q.2.name_ = q.1 ∧ q.2.stateFrom_ = p.1 ∧ G.hasState q.2.stateTo_ = true := by
  unfold StateMachineConfig.wellFormed
  rw [List.all_eq_true]
  constructor
  · intro h p hp
    have hp1 := h p hp
    cases hp2 : p.2 with
    | none => simp [hp2] at hp1
    | some state =>
      simp only [hp2, Bool.and_eq_true, beq_iff_eq,
        StateMachineConfig.transitionsWellFormed, List.all_eq_true] at hp1
      exact ⟨state, rfl, hp1.1, fun q hq => ⟨(hp1.2 q hq).1.1, (hp1.2 q hq).1.2, (hp1.2 q hq).2⟩⟩
  · intro h p hp
    obtain ⟨state, hp2, hname, htr⟩ := h p hp
    simp only [hp2, Bool.and_eq_true, beq_iff_eq,
      StateMachineConfig.transitionsWellFormed, List.all_eq_true]
    exact ⟨hname, fun q hq => ⟨⟨(htr q hq).1, (htr q hq).2.1⟩, (htr q hq).2.2⟩⟩

theorem StateMachineConfig.hasState_of_Contains (G : StateMachineConfig)
    (hwf : G.wellFormed = true) (name : String)
    (h : HashMap.Contains G.states_ name = true) : G.hasState name = true := by
  cases hf : HashMap.Find G.states_ name with
  | none => simp [HashMap.Contains, hf] at h
  | some ptr =>
    obtain ⟨state, hp2, _⟩ :=
      (StateMachineConfig.wellFormed_iff G).mp hwf _ (HashMap.Find_mem _ _ _ hf)
    simp only at hp2
    subst hp2
    simp [StateMachineConfig.hasState, hf]

theorem StateMachineConfig.Contains_of_hasState (G : StateMachineConfig) (name : String)
    (h : G.hasState name = true) : HashMap.Contains G.states_ name = true := by
  cases hf : HashMap.Find G.states_ name with
  | none => simp [StateMachineConfig.hasState, hf] at h
  | some ptr => simp [HashMap.Contains, hf]

theorem StateMachineConfig.hasState_Insert_state (states : HashMap String (Option StateMachineState))
    (key name : String) (state : StateMachineState)
    (h : StateMachineConfig.hasState { states_ := states } name = true) :
    StateMachineConfig.hasState { states_ := HashMap.Insert states (key, some state) } name
      = true := by
  by_cases hk : key = name
  · subst hk
    simp [StateMachineConfig.hasState, HashMap.Find_Insert_self]
  · simpa [StateMachineConfig.hasState, HashMap.Find_Insert_other _ _ _ _ hk] using h

theorem StateMachineConfig.wellFormed_AddState (speed0 : Float32) (G : StateMachineConfig)
    (n : String) (hwf : G.wellFormed = true) :
    (StateMachineConfig.AddState speed0 G n).2.wellFormed = true := by
  by_cases hc : HashMap.Contains G.states_ n = true
  · rw [StateMachineConfig.AddState_of_Contains speed0 G n hc]
    exact hwf
  · rw [StateMachineConfig.AddState, if_neg hc]
    rw [StateMachineConfig.wellFormed_iff]
    intro p hp
    rcases HashMap.mem_Insert _ _ _ _ hp with hp | hp
    · subst hp
      exact ⟨_, rfl, rfl, fun q hq => by simp [StateMachineState.construct] at hq⟩
    · obtain ⟨state, hp2, hname, htr⟩ := (StateMachineConfig.wellFormed_iff G).mp hwf p hp
      exact ⟨state, hp2, hname, fun q hq =>
        ⟨(htr q hq).1, (htr q hq).2.1,
          StateMachineConfig.hasState_Insert_state G.states_ n _ _ (htr q hq).2.2⟩⟩

theorem StateMachineConfig.wellFormed_AddTransition (G : StateMachineConfig)
    (t : StateMachineTransition) (hwf : G.wellFormed = true) :
    ∃ r, StateMachineConfig.AddTransition G t = some r ∧ r.2.wellFormed = true := by
  cases hf : HashMap.Find G.states_ t.stateFrom_ with
  | none => exact ⟨(false, G), by simp [StateMachineConfig.AddTransition, hf], hwf⟩
  | some ptr =>
    by_cases hto : HashMap.Contains G.states_ t.stateTo_ = true
    · obtain ⟨source, hp2, hname, htr⟩ :=
        (StateMachineConfig.wellFormed_iff G).mp hwf _ (HashMap.Find_mem _ _ _ hf)
      simp only at hp2 hname htr
      subst hp2
      refine ⟨_, StateMachineConfig.AddTransition_of_source G t source hf hto, ?_⟩
      by_cases hc : HashMap.Contains source.transitions_ t.name_ = true
      · rw [StateMachineState.AddTransition_of_Contains source t hc]
        simp only
        rw [HashMap.Insert_of_Find _ _ _ hf]
        exact hwf
      · rw [StateMachineState.AddTransition_of_not_Contains source t (by simpa using hc)]
        simp only
        rw [StateMachineConfig.wellFormed_iff]
        intro p hp
        rcases HashMap.mem_Insert _ _ _ _ hp with hp | hp
        · subst hp
          refine ⟨_, rfl, hname, ?_⟩
          intro q hq
          rcases HashMap.mem_Insert _ _ _ _ hq with hq | hq
          · subst hq
            exact ⟨rfl, rfl, StateMachineConfig.hasState_Insert_state G.states_ _ _ _
              (StateMachineConfig.hasState_of_Contains G hwf _ hto)⟩
          · exact ⟨(htr q hq).1, (htr q hq).2.1,
              StateMachineConfig.hasState_Insert_state G.states_ _ _ _ (htr q hq).2.2⟩
        · obtain ⟨state, hp2, hname1, htr1⟩ :=
            (StateMachineConfig.wellFormed_iff G).mp hwf p hp
          exact ⟨state, hp2, hname1, fun q hq =>
            ⟨(htr1 q hq).1, (htr1 q hq).2.1,
              StateMachineConfig.hasState_Insert_state G.states_ _ _ _ (htr1 q hq).2.2⟩⟩
    · exact ⟨(false, G), by simp [StateMachineConfig.AddTransition, hf, hto], hwf⟩

theorem StateMachineConfig.performAll_wellFormed (speed0 : Float32)
    (calls : List BuildCall) :
    ∀ G : StateMachineConfig, G.wellFormed = true →
      ∃ G1, StateMachineConfig.performAll speed0 G calls = some G1 ∧
        G1.wellFormed = true := by
  induction calls with
  | nil => intro G h; exact ⟨G, rfl, h⟩
  | cons call rest ih =>
    intro G h
    cases call with
    | addState n =>
      obtain ⟨G1, hrun, hwf⟩ := ih _ (StateMachineConfig.wellFormed_AddState speed0 G n h)
      exact ⟨G1, by simp [StateMachineConfig.performAll, StateMachineConfig.perform, hrun],
        hwf⟩
    | addTransition t =>
      obtain ⟨r, hr, hr2⟩ := StateMachineConfig.wellFormed_AddTransition G t h
      obtain ⟨G1, hrun, hwf⟩ := ih _ hr2
      exact ⟨G1,
        by simp [StateMachineConfig.performAll, StateMachineConfig.perform, hr, hrun], hwf⟩

theorem StateMachineConfig.storedUnderOwnNames_of_wellFormed (G : StateMachineConfig)
    (hwf : G.wellFormed = true) : G.storedUnderOwnNames = true := by
  unfold StateMachineConfig.storedUnderOwnNames
  rw [List.all_eq_true]
  intro p hp
  obtain ⟨state, hp2, hname, _⟩ := (StateMachineConfig.wellFormed_iff G).mp hwf p hp
  simp [StateMachineConfig.nodeNamed, hp2, hname]

theorem StateMachineConfig.allDestinationsResolve_of_wellFormed (G : StateMachineConfig)
    (hwf : G.wellFormed = true) : G.allDestinationsResolve = true := by
  unfold StateMachineConfig.allDestinationsResolve
  rw [List.all_eq_true]
  intro p hp
  obtain ⟨state, hp2, _, htr⟩ := (StateMachineConfig.wellFormed_iff G).mp hwf p hp
  simp only [hp2, StateMachineConfig.destinationsResolve, List.all_eq_true]
  exact fun q hq => (htr q hq).2.2

/-- C20 (graphs built without the loader are well formed). Every sequence of `AddState`
and graph-level `AddTransition` calls on a new graph has an outcome, and the graph it
leaves is well formed: every node holds a state under the name of that state, every
transition is stored under its own trigger name in the state named by its source, and
the destination of every transition names a state of the graph. Hence, on that graph,
`Transit` with a trigger that the current state (a state of the graph) has a
transition for returns true, leaves the graph alone and moves to the state the graph
stores under the destination. -/
theorem built_graph_well_formed (speed0 : Float32) (calls : List BuildCall) :
    ∃ G, StateMachineConfig.performAll speed0 StateMachineConfig.empty calls = some G ∧
      G.wellFormed = true ∧
      G.storedUnderOwnNames = true ∧
      G.allDestinationsResolve = true ∧
      (∀ (k t : String) (state : StateMachineState) (transition : StateMachineTransition),
        HashMap.Find G.states_ k = some (some state) →
        HashMap.Find state.transitions_ t = some transition →
        transition.name_ = t ∧ transition.stateFrom_ = k ∧
        ∃ destination,
          HashMap.Find G.states_ transition.stateTo_ = some (some destination) ∧
          ∀ self : StateMachine, self.stateCurrent_ = some state →
            ∃ out, StateMachine.Transit G self t = some out ∧
              out.result = true ∧ out.config = G ∧
              out.machine.stateCurrent_ = some destination) := by
  obtain ⟨G, hrun, hwf⟩ :=
    StateMachineConfig.performAll_wellFormed speed0 calls StateMachineConfig.empty (by decide)
  have hclosed := StateMachineConfig.allDestinationsResolve_of_wellFormed G hwf
  refine ⟨G, hrun, hwf, StateMachineConfig.storedUnderOwnNames_of_wellFormed G hwf,
    hclosed, ?_⟩
  intro k t state transition hstate htr
  obtain ⟨state1, hp2, _, htrs⟩ :=
    (StateMachineConfig.wellFormed_iff G).mp hwf _ (HashMap.Find_mem _ _ _ hstate)
  simp only [Option.some.injEq] at hp2
  subst hp2
  have hq := htrs _ (HashMap.Find_mem _ _ _ htr)
  obtain ⟨destination, hdest⟩ :=
    StateMachineConfig.destination_of_transition G hclosed k t state transition hstate htr
  refine ⟨hq.1, hq.2.1, destination, hdest, ?_⟩
  intro self hcur
  exact ⟨_, StateMachine.Transit_move G self state destination transition t hcur htr hdest,
    rfl, rfl, rfl⟩

/-- Instance of C20: the sample calls, among them a repeated `AddState`, a transition to
an unknown state and a repeated trigger, leave a well-formed graph with two states. -/
theorem built_graph_well_formed_witness :
    ∃ G, StateMachineConfig.performAll ⟨0x3F800000⟩ StateMachineConfig.empty Sample.buildCalls
        = some G ∧
      G.wellFormed = true ∧ G.GetStatesCount = 2 ∧
      StateMachineConfig.CanTransit G "Idle" "run" = some (true, G) ∧
      StateMachineConfig.CanTransit G "Idle" "walk" = some (false, G) := by
  obtain ⟨G, hrun, hwf, _⟩ := built_graph_well_formed ⟨0x3F800000⟩ Sample.buildCalls
  have h : StateMachineConfig.performAll ⟨0x3F800000⟩ StateMachineConfig.empty
      Sample.buildCalls
      = some (Option.get (StateMachineConfig.performAll ⟨0x3F800000⟩
          StateMachineConfig.empty Sample.buildCalls) (by decide)) := by decide
  rw [h] at hrun
  injection hrun with hrun
  subst hrun
  exact ⟨_, h, hwf, by decide, by decide, by decide⟩

end Urho3D
